import Mathlib

/-!
Shallow embedding of `dask_sql/physical/rel/logical/window.py` (SQL window
functions over partitioned tables) together with proofs checking the
natural-language specification against it.

Tables are modelled as lists of rows; a row is an association list from column
names to integer values (a missing entry models a null).  Machinery that lives
outside the file under study (pandas expanding/rolling frames, the literal
converter, the sort utility, the groupby-apply primitive) is modelled from the
specification and marked as such in the corresponding doc comments.
-/

namespace DaskSqlWindow

instance {ε α : Type} [DecidableEq ε] [DecidableEq α] : DecidableEq (Except ε α) := fun x y =>
  match x, y with
  | .ok a, .ok b =>
    if h : a = b then .isTrue (by rw [h]) else .isFalse (by intro hc; cases hc; exact h rfl)
  | .ok _, .error _ => .isFalse (fun hc => Except.noConfusion hc)
  | .error _, .ok _ => .isFalse (fun hc => Except.noConfusion hc)
  | .error e, .error f =>
    if h : e = f then .isTrue (by rw [h]) else .isFalse (by intro hc; cases hc; exact h rfl)

/-- A table row: association list from column names to integer cell values. -/
abbrev Row := List (String × Int)

/-- A table: a list of rows. -/
abbrev Table := List Row

/-- Modelled from the spec: one-column effect of pandas `DataFrame.assign` — when
the column already exists its values are replaced in place, otherwise the new
column is appended after the existing ones. -/
def setField (r : Row) (name : String) (v : Int) : Row :=
  if (r.lookup name).isSome then
    r.map (fun p => if p.1 = name then (name, v) else p)
  else
    r ++ [(name, v)]

/-- Modelled from the spec: row-level effect of `DataFrame.drop(columns=cols)`. -/
def dropFields (cols : List String) (r : Row) : Row :=
  r.filter (fun p => decide (p.1 ∉ cols))

/-- Structure `BoundDescription` from window.py: the namedtuple wrapping a Calcite
window bound (four kind flags plus an optional resolved integer offset). -/
structure BoundDescription where
  is_unbounded : Bool
  is_preceding : Bool
  is_following : Bool
  is_current_row : Bool
  offset : Option Int
  deriving Repr, DecidableEq

/-- The offset expression carried by a raw Calcite window bound: a reference into
the constant pool (`RexInputRef`), a literal, or some other expression node. -/
inductive RexNode where
  | inputRef (index : Nat)
  | literal (value : Int)
  | otherNode
  deriving Repr, DecidableEq

/-- A raw Calcite `RexWindowBound` as seen by `to_bound_description`: the result
of `getOffset()` (`none` when the bound carries no offset) plus the four kind
predicates `isUnbounded`, `isPreceding`, `isFollowing`, `isCurrentRow`. -/
structure RawWindowBound where
  offset : Option RexNode
  isUnbounded : Bool
  isPreceding : Bool
  isFollowing : Bool
  isCurrentRow : Bool
  deriving Repr, DecidableEq

/-- Python list indexing `l[i]`: negative indices count from the end of the list;
an index out of range raises `IndexError`. -/
def pyListGet (l : List Int) (i : Int) : Except String Int :=
  let j : Int := if i < 0 then (l.length : Int) + i else i
  if 0 ≤ j then
    match l[j.toNat]? with
    | some v => .ok v
    | none => .error "IndexError: list index out of range"
  else .error "IndexError: list index out of range"

/-- Modelled from the spec: `RexLiteralPlugin().convert` lives in
`dask_sql/physical/rex/core/literal.py`, which is not under src/.  Per spec §4.1
a frame-bound offset must resolve to a literal integer; converting any other
expression node fails (the spec's `UnsupportedBoundKind`). -/
def rexLiteralConvert : RexNode → Except String Int
  | .literal v => .ok v
  | _ => .error "UnsupportedBoundKind: offset is not a resolvable integer literal"

/-- Offset resolution inside `to_bound_description`: when the offset is a
`RexInputRef`, the constant pool is dereferenced at
`getIndex() - constant_count_offset` (Python list indexing); the resulting (or
directly carried) node is then converted to a plain `int`. -/
def resolveOffset (off : RexNode) (constants : List Int) (constant_count_offset : Nat) :
    Except String Int :=
  match off with
  | .inputRef idx =>
    match pyListGet constants ((idx : Int) - (constant_count_offset : Int)) with
    | .ok c => rexLiteralConvert (.literal c)
    | .error msg => .error msg
  | _ => rexLiteralConvert off

/-- Function `to_bound_description` from window.py: convert a raw Calcite bound
to a `BoundDescription`.  An absent offset stays `None`; any other offset is
resolved via `resolveOffset`, with any raised exception propagating. -/
def to_bound_description (java_window : RawWindowBound) (constants : List Int)
    (constant_count_offset : Nat) : Except String BoundDescription :=
  match java_window.offset with
  | none =>
    .ok ⟨java_window.isUnbounded, java_window.isPreceding, java_window.isFollowing,
         java_window.isCurrentRow, none⟩
  | some off =>
    match resolveOffset off constants constant_count_offset with
    | .ok v =>
      .ok ⟨java_window.isUnbounded, java_window.isPreceding, java_window.isFollowing,
           java_window.isCurrentRow, some v⟩
    | .error msg => .error msg

/-- Structure `Indexer` from window.py: the custom `BaseIndexer` holding the two
signed window offsets (`start` and `end`, each possibly Python `None`). -/
structure Indexer where
  start : Option Int
  end_ : Option Int
  deriving Repr, DecidableEq

/-- The `start` array of `Indexer.get_window_bounds`: `np.zeros` when `start` is
`None`; otherwise `np.arange(start, start + num_values)` with the first `-start`
entries clamped to `0` when `start < 0`, and the last `start` entries set to
`num_values` when `start > 0` (numpy slices clamp silently). -/
def indexerStartList : Option Int → Nat → List Int
  | none, n => List.replicate n 0
  | some s, n =>
    (List.range n).map (fun (i : Nat) =>
      if s < 0 then (if (i : Int) < -s then 0 else s + (i : Int))
      else if 0 < s then (if (n : Int) - s ≤ (i : Int) then (n : Int) else s + (i : Int))
      else s + (i : Int))

/-- The `end` array of `Indexer.get_window_bounds`: `np.full(n, n)` when `end` is
`None`; otherwise `np.arange(end + 1, end + 1 + num_values)` with the last `end`
entries set to `num_values` when `end > 0`, the first `-end` entries clamped to
`0` when `end < 0`, and an `AssertionError` raised when `end == 0`. -/
def indexerEndList : Option Int → Nat → Except String (List Int)
  | none, n => .ok (List.replicate n (n : Int))
  | some e, n =>
    if 0 < e then
      .ok ((List.range n).map (fun (i : Nat) =>
        if (n : Int) - e ≤ (i : Int) then (n : Int) else e + 1 + (i : Int)))
    else if e < 0 then
      .ok ((List.range n).map (fun (i : Nat) =>
        if (i : Int) < -e then 0 else e + 1 + (i : Int)))
    else
      .error "AssertionError: This case should have been handled before! Please report this bug"

/-- Method `Indexer.get_window_bounds` from window.py, returning the per-row
`(start, end)` index arrays for a partition of `num_values` rows. -/
def Indexer.get_window_bounds (idx : Indexer) (num_values : Nat) :
    Except String (List Int × List Int) :=
  (indexerEndList idx.end_ num_values).map
    (fun ends => (indexerStartList idx.start num_values, ends))

/-- The signed offset computed in the general branch of `map_on_each_group`:
`offset if not is_current_row else 0`, negated when the bound is preceding and
the value is not `None`. -/
def generalOffset (b : BoundDescription) : Option Int :=
  let o := if b.is_current_row then some 0 else b.offset
  if b.is_preceding && o.isSome then o.map (fun x => -x) else o

/-- The pandas windowing object selected by the three-way branch at the top of
`map_on_each_group`: `expanding(min_periods=0)`, `rolling(window=offset+1)`, or
`rolling(window=Indexer(lower_offset, upper_offset))`. -/
inductive Windowed where
  | expanding
  | rollingFixed (window : Int)
  | rollingIndexer (indexer : Indexer)
  deriving Repr, DecidableEq

/-- The branch dispatch of `map_on_each_group`.  The second branch evaluates
`lower_bound.offset + 1`, which in Python raises `TypeError` when the offset is
`None`; the other branches construct their windowing object without error. -/
def windowedGroupOf (lower_bound upper_bound : BoundDescription) :
    Except String Windowed :=
  if lower_bound.is_unbounded &&
      (upper_bound.is_current_row || upper_bound.offset == some 0) then
    .ok .expanding
  else if lower_bound.is_preceding &&
      (upper_bound.is_current_row || upper_bound.offset == some 0) then
    match lower_bound.offset with
    | some k => .ok (.rollingFixed (k + 1))
    | none => .error "TypeError: unsupported operand type NoneType + int"
  else
    .ok (.rollingIndexer ⟨generalOffset lower_bound, generalOffset upper_bound⟩)

/-- Modelled from the spec: the frames produced by pandas
`expanding(min_periods=0)` — spec §4.2 case (1): `start_i = 0`, `end_i = i+1`. -/
def expandingBounds (n : Nat) : List Int × List Int :=
  (List.replicate n 0, (List.range n).map (fun (i : Nat) => (i : Int) + 1))

/-- Modelled from the spec: the frames produced by pandas
`rolling(window=w, min_periods=0)` — spec §4.2 case (2) with `w = offset + 1`:
`start_i = max(0, i + 1 - w)`, `end_i = i + 1`. -/
def rollingFixedBounds (w : Int) (n : Nat) : List Int × List Int :=
  ((List.range n).map (fun (i : Nat) => max 0 ((i : Int) + 1 - w)),
   (List.range n).map (fun (i : Nat) => (i : Int) + 1))

/-- Per-row frame boundaries of a windowing object over a partition of `n` rows;
for the `Indexer` case these are exactly `Indexer.get_window_bounds`. -/
def windowBoundsOf : Windowed → Nat → Except String (List Int × List Int)
  | .expanding, n => .ok (expandingBounds n)
  | .rollingFixed w, n => .ok (rollingFixedBounds w n)
  | .rollingIndexer idx, n => idx.get_window_bounds n

/-- Clamp an integer into the interval `[lo, hi]`. -/
def clampInt (x lo hi : Int) : Int := max lo (min x hi)

/-- Modelled from the spec: the general branch-(3) formulas of §4.2 —
`start_i = clamp(i + lower_offset, 0, n)` and `end_i = clamp(i + upper_offset + 1, 0, n)`,
with a `None` lower offset meaning unbounded preceding (`start_i = 0`) and a
`None` upper offset meaning unbounded following (`end_i = n`). -/
def generalStartFormula : Option Int → Nat → List Int
  | none, n => List.replicate n 0
  | some s, n => (List.range n).map (fun (i : Nat) => clampInt ((i : Int) + s) 0 n)

/-- Modelled from the spec: the end-index half of the same branch-(3) formulas. -/
def generalEndFormula : Option Int → Nat → List Int
  | none, n => List.replicate n (n : Int)
  | some e, n => (List.range n).map (fun (i : Nat) => clampInt ((i : Int) + e + 1) 0 n)

/-- The branch-(3) formula pair for both index arrays. -/
def generalFormulaBounds (s e : Option Int) (n : Nat) : List Int × List Int :=
  (generalStartFormula s n, generalEndFormula e n)

/-- Tag for the built-in `OverOperation` subclasses of window.py. -/
inductive OverOp where
  | first_value
  | last_value
  | sum
  | count
  | max
  | min
  deriving Repr, DecidableEq

/-- Rows of a column between frame boundaries `s` (inclusive) and `e` (exclusive). -/
def frameSlice (col : List Int) (s e : Int) : List Int :=
  (col.drop s.toNat).take (e.toNat - s.toNat)

/-- Modelled from the spec: the per-frame scalar computed by each built-in
`OverOperation` (§4.3).  Null handling is not modelled (cell values are plain
integers); the empty-frame results of max/min/first/last default to `0` here —
no claim under study depends on them. -/
def evalOp : OverOp → List Int → Int
  | .sum, xs => xs.sum
  | .count, xs => xs.length
  | .max, xs => xs.foldr Max.max 0
  | .min, xs => xs.foldr Min.min 0
  | .first_value, xs => xs.headD 0
  | .last_value, xs => xs.getLastD 0

/-- Apply one operator over every per-row frame of an operand column. -/
def applyWindowOp (op : OverOp) (bounds : List Int × List Int) (col : List Int) :
    List Int :=
  (bounds.1.zip bounds.2).map (fun se => evalOp op (frameSlice col se.1 se.2))

/-- The values of one column of a partition (missing cells default to 0; the
claims under study never exercise that default). -/
def operandColumn (g : Table) (c : String) : List Int :=
  g.map (fun r => (r.lookup c).getD 0)

/-- One iteration of the result loop of `map_on_each_group`: the row_number
operator (`f is None`) yields `range(1, len + 1)` without touching the windowed
group; any other operator evaluates over the frames of the windowed group —
which is where pandas actually invokes `Indexer.get_window_bounds`, so the
assertion inside it only fires for non-row_number operators. -/
def computeColumn (w : Windowed) (g1 : Table) (f : Option OverOp)
    (operandCols : List String) : Except String (List Int) :=
  match f with
  | none => .ok ((List.range g1.length).map (fun (i : Nat) => (i : Int) + 1))
  | some op =>
    match windowBoundsOf w g1.length with
    | .error msg => .error msg
    | .ok b => .ok (applyWindowOp op b (operandColumn g1 (operandCols.headD "")))

/-- The `new_columns` dictionary built by the result loop of
`map_on_each_group`, in insertion order. -/
def computeNewColumns (w : Windowed) (g1 : Table) :
    List (Option OverOp × String × List String) →
    Except String (List (String × List Int))
  | [] => .ok []
  | (f, name, opcols) :: rest =>
    match computeColumn w g1 f opcols with
    | .error msg => .error msg
    | .ok col =>
      match computeNewColumns w g1 rest with
      | .error msg => .error msg
      | .ok others => .ok ((name, col) :: others)

/-- The new fields row `i` receives from a batch of new columns. -/
def rowFields (cols : List (String × List Int)) (i : Nat) : Row :=
  cols.map (fun c => (c.1, c.2.getD i 0))

/-- Modelled from the spec: `partitioned_group.assign(**new_columns)` — all new
columns are applied in one batch, aligned positionally with the partition rows. -/
def assignAll (df : Table) (cols : List (String × List Int)) : Table :=
  (List.range df.length).map (fun i =>
    cols.foldl (fun acc c => setField acc c.1 (c.2.getD i 0)) (df.getD i []))

/-- Modelled from the spec: comparison of two possibly-missing (null) sort-key
values honoring ascending/descending and nulls-first/nulls-last (§4.4 (a)). -/
def sortValueLt (asc nullsFirst : Bool) : Option Int → Option Int → Bool
  | none, none => false
  | none, some _ => nullsFirst
  | some _, none => !nullsFirst
  | some u, some v => if asc then decide (u < v) else decide (v < u)

/-- Lexicographic row comparison along the sort-key specifications. -/
def rowLe (cols : List String) (ascs nfs : List Bool) (r1 r2 : Row) : Bool :=
  match cols, ascs, nfs with
  | c :: cs, a :: as2, f :: fs =>
      let v1 := r1.lookup c
      let v2 := r2.lookup c
      if sortValueLt a f v1 v2 then true
      else if sortValueLt a f v2 v1 then false
      else rowLe cs as2 fs r1 r2
  | _, _, _ => true

/-- Modelled from the spec: `sort_partition_func` (dask_sql/physical/utils/sort.py,
not under src/) — a stable sort of the partition rows by the order keys (§4.4 (a)). -/
def sortRows (cols : List String) (ascs nfs : List Bool) (g : Table) : Table :=
  List.insertionSort (fun r1 r2 => rowLe cols ascs nfs r1 r2 = true) g

/-- The partition after the optional sorting step at the top of
`map_on_each_group` (`if sort_columns: ... sort_partition_func(...)`). -/
def sortedPartition (sort_columns : List String) (sort_ascending sort_null_first : List Bool)
    (partitioned_group : Table) : Table :=
  if sort_columns.isEmpty then partitioned_group
  else sortRows sort_columns sort_ascending sort_null_first partitioned_group

/-- Function `map_on_each_group` from window.py: sort the partition if sort
columns are given, select the windowing object, compute every requested result
column, and assign them all at once onto the partition. -/
def map_on_each_group (sort_columns : List String)
    (sort_ascending sort_null_first : List Bool)
    (lower_bound upper_bound : BoundDescription)
    (operations : List (Option OverOp × String × List String))
    (partitioned_group : Table) : Except String Table :=
  match windowedGroupOf lower_bound upper_bound with
  | .error msg => .error msg
  | .ok w =>
    match computeNewColumns w
        (sortedPartition sort_columns sort_ascending sort_null_first partitioned_group)
        operations with
    | .error msg => .error msg
    | .ok new_columns =>
      .ok (assignAll
        (sortedPartition sort_columns sort_ascending sort_null_first partitioned_group)
        new_columns)

/-- Constant `DaskWindowPlugin.OPERATION_MAPPING` from window.py; `row_number`
deliberately maps to `None` (no windowing needed). -/
def OPERATION_MAPPING : List (String × Option OverOp) :=
  [("row_number", none),
   ("$sum0", some .sum),
   ("sum", some .sum),
   ("count", some .count),
   ("max", some .max),
   ("min", some .min),
   ("single_value", some .first_value),
   ("first_value", some .first_value),
   ("last_value", some .last_value)]

/-- Python `str.lower()` on one character, for the ASCII operator names that
occur in plans. -/
def pyLowerChar (c : Char) : Char :=
  if 'A' ≤ c ∧ c ≤ 'Z' then Char.ofNat (c.toNat + 32) else c

/-- Python `str.lower()` (ASCII range), applied to operator names exactly as
`operator_name.lower()` in `_extract_operations`. -/
def pyLower (s : String) : String := ⟨s.data.map pyLowerChar⟩

/-- Operator lookup of `DaskWindowPlugin._extract_operations`: the lowercased
name is looked up in `OPERATION_MAPPING`, then in `context.functions`, and
failing both a `NotImplementedError` is raised. -/
def lookupOperation (contextFunctions : List (String × OverOp))
    (operator_name : String) : Except String (Option OverOp) :=
  match OPERATION_MAPPING.lookup (pyLower operator_name) with
  | some op => .ok op
  | none =>
    match contextFunctions.lookup (pyLower operator_name) with
    | some f => .ok (some f)
    | none =>
      .error ("NotImplementedError: " ++ pyLower operator_name ++ " not (yet) implemented")

/-- One aggregate call of a window group: the operator name, the temporary
operand columns (name plus the expression computing it from a row — the
`RexConverter` evaluation is external to the file under study), and the
temporary name of the result column. -/
structure AggCall where
  opName : String
  operands : List (String × (Row → Int))
  newColumn : String

/-- Assign one computed column onto every row of a table. -/
def assignFn (df : Table) (name : String) (f : Row → Int) : Table :=
  df.map (fun r => setField r name (f r))

/-- Method `DaskWindowPlugin._extract_operations`: per aggregate call, look up
the operator (raising before anything else for an unknown name), assign the
temporary operand columns, and record `(operation, new_column, operand_columns)`. -/
def extract_operations (contextFunctions : List (String × OverOp)) (df : Table) :
    List AggCall →
    Except String (List (Option OverOp × String × List String) × Table)
  | [] => .ok ([], df)
  | c :: rest =>
    match lookupOperation contextFunctions c.opName with
    | .error msg => .error msg
    | .ok op =>
      match extract_operations contextFunctions
          (c.operands.foldl (fun d oc => assignFn d oc.1 oc.2) df) rest with
      | .error msg => .error msg
      | .ok (ops, df3) => .ok ((op, c.newColumn, c.operands.map (·.1)) :: ops, df3)

/-- Method `DaskWindowPlugin._extract_groupby`: assign one temporary grouping
column per partition key (the constant `1` when there are none — both shapes
are covered by the row-functions parameter) and return their names. -/
def extract_groupby (df : Table) (gcols : List (String × (Row → Int))) :
    Table × List String :=
  (gcols.foldl (fun d c => assignFn d c.1 c.2) df, gcols.map (·.1))

/-- The grouping key of a row: the values of the grouping columns. -/
def rowKey (gcolNames : List String) (r : Row) : List (Option Int) :=
  gcolNames.map (fun c => r.lookup c)

/-- Recursion of `groupby_apply` over the list of distinct grouping keys. -/
def applyToGroups (df : Table) (gcolNames : List String)
    (f : Table → Except String Table) :
    List (List (Option Int)) → Except String Table
  | [] => .ok []
  | k :: ks =>
    match f (df.filter (fun r => decide (rowKey gcolNames r = k))) with
    | .error msg => .error msg
    | .ok g =>
      match applyToGroups df gcolNames f ks with
      | .error msg => .error msg
      | .ok rest => .ok (g ++ rest)

/-- Modelled from the spec: `df.groupby(group_columns).apply(f)` — rows are
partitioned by the values of the grouping columns, `f` runs on each partition
independently, and the per-partition results are concatenated. -/
def groupby_apply (df : Table) (gcolNames : List String)
    (f : Table → Except String Table) : Except String Table :=
  applyToGroups df gcolNames f ((df.map (rowKey gcolNames)).dedup)

/-- Method `DaskWindowPlugin._apply_window`: extract grouping columns and
operations (assigning their temporary columns), run `map_on_each_group` on every
partition, then drop all temporary columns (the result columns stay and are
later renamed through the column container, which is bookkeeping outside the
table itself; `reset_index(drop=True)` does not change row contents). -/
def apply_window (df : Table) (gcols : List (String × (Row → Int)))
    (aggCalls : List AggCall) (contextFunctions : List (String × OverOp))
    (sort_columns : List String) (sort_ascending sort_null_first : List Bool)
    (lower_bound upper_bound : BoundDescription) : Except String Table :=
  match extract_operations contextFunctions (extract_groupby df gcols).1 aggCalls with
  | .error msg => .error msg
  | .ok (operations, df2) =>
    match groupby_apply df2 (extract_groupby df gcols).2
        (map_on_each_group sort_columns sort_ascending sort_null_first
          lower_bound upper_bound operations) with
    | .error msg => .error msg
    | .ok df3 =>
      .ok (df3.map (dropFields
        ((extract_groupby df gcols).2 ++ (operations.map (·.2.2)).flatten)))

/-! ## Basic lemmas about the Indexer arrays and the general clamp formulas -/

theorem indexerStartList_eq_clamp (s : Int) (n : Nat) :
    indexerStartList (some s) n = generalStartFormula (some s) n := by
  unfold indexerStartList generalStartFormula clampInt
  refine List.map_congr_left (fun i hi => ?_)
  have hin : i < n := List.mem_range.mp hi
  split_ifs <;> omega

theorem indexerEndList_eq_clamp (e : Int) (n : Nat) (he : e ≠ 0) :
    indexerEndList (some e) n = .ok (generalEndFormula (some e) n) := by
  simp only [indexerEndList, generalEndFormula, clampInt]
  rcases lt_trichotomy e 0 with h | h | h
  · rw [if_neg (by omega), if_pos h]
    congr 1
    refine List.map_congr_left (fun i hi => ?_)
    have hin : i < n := List.mem_range.mp hi
    split_ifs <;> omega
  · exact absurd h he
  · rw [if_pos h]
    congr 1
    refine List.map_congr_left (fun i hi => ?_)
    have hin : i < n := List.mem_range.mp hi
    split_ifs <;> omega

theorem indexerEndList_zero (n : Nat) :
    indexerEndList (some 0) n =
      .error "AssertionError: This case should have been handled before! Please report this bug" := by
  simp only [indexerEndList]
  rw [if_neg (by omega), if_neg (by omega)]

theorem indexerStartList_eq_formula (s : Option Int) (n : Nat) :
    indexerStartList s n = generalStartFormula s n := by
  cases s with
  | none => rfl
  | some sv => exact indexerStartList_eq_clamp sv n

theorem get_window_bounds_ok_eq (idx : Indexer) (n : Nat) (r : List Int × List Int)
    (h : idx.get_window_bounds n = .ok r) :
    r = generalFormulaBounds idx.start idx.end_ n := by
  obtain ⟨s, e⟩ := idx
  unfold Indexer.get_window_bounds at h
  cases e with
  | none =>
    simp only [indexerEndList, Except.map] at h
    cases h
    exact Prod.ext (indexerStartList_eq_formula s n) rfl
  | some ev =>
    by_cases he : ev = 0
    · subst he
      rw [indexerEndList_zero] at h
      simp only [Except.map] at h
      cases h
    · rw [indexerEndList_eq_clamp ev n he] at h
      simp only [Except.map] at h
      cases h
      exact Prod.ext (indexerStartList_eq_formula s n) rfl

theorem clampInt_lower (x n : Int) : 0 ≤ clampInt x 0 n := by
  unfold clampInt; omega

theorem clampInt_upper (x n : Int) (hn : 0 ≤ n) : clampInt x 0 n ≤ n := by
  unfold clampInt; omega

theorem clampInt_mono (x y n : Int) (h : x ≤ y) : clampInt x 0 n ≤ clampInt y 0 n := by
  unfold clampInt; omega

theorem getD_map_range (f : Nat → Int) (i n : Nat) (h : i < n) :
    ((List.range n).map f).getD i 0 = f i := by
  simp [List.getD_eq_getElem?_getD, List.getElem?_range, h]

theorem getD_replicate_of_lt (c : Int) (i n : Nat) (h : i < n) :
    (List.replicate n c).getD i 0 = c := by
  simp [List.getD_eq_getElem?_getD, List.getElem?_replicate, h]

/-! ## Lemmas about the signed offsets and the branch dispatch -/

theorem generalOffset_of_upper_zero (b : BoundDescription)
    (h : b.is_current_row = true ∨ b.offset = some 0) : generalOffset b = some 0 := by
  unfold generalOffset
  have ho : (if b.is_current_row then some 0 else b.offset) = some (0 : Int) := by
    rcases h with h | h
    · simp [h]
    · cases hb : b.is_current_row <;> simp [h]
  rw [ho]
  cases b.is_preceding <;> simp

theorem generalOffset_of_none (b : BoundDescription)
    (h1 : b.is_current_row = false) (h2 : b.offset = none) : generalOffset b = none := by
  unfold generalOffset
  simp [h1, h2]

theorem generalOffset_of_preceding (b : BoundDescription) (k : Int)
    (h1 : b.is_current_row = false) (h2 : b.is_preceding = true) (h3 : b.offset = some k) :
    generalOffset b = some (-k) := by
  unfold generalOffset
  simp [h1, h2, h3]

theorem generalOffset_of_following (b : BoundDescription) (k : Int)
    (h1 : b.is_current_row = false) (h2 : b.is_preceding = false) (h3 : b.offset = some k) :
    generalOffset b = some k := by
  unfold generalOffset
  simp [h1, h2, h3]

theorem upperCond_eq_true (ub : BoundDescription)
    (h : ub.is_current_row = true ∨ ub.offset = some 0) :
    (ub.is_current_row || (ub.offset == some 0)) = true := by
  rcases h with h | h <;> simp [h]

theorem windowedGroupOf_case1 (lb ub : BoundDescription)
    (h1 : lb.is_unbounded = true) (h2 : ub.is_current_row = true ∨ ub.offset = some 0) :
    windowedGroupOf lb ub = .ok .expanding := by
  unfold windowedGroupOf
  rw [if_pos (by rw [h1, upperCond_eq_true ub h2]; rfl)]

theorem windowedGroupOf_case2 (lb ub : BoundDescription) (k : Int)
    (h1 : lb.is_unbounded = false) (h2 : lb.is_preceding = true) (h3 : lb.offset = some k)
    (h4 : ub.is_current_row = true ∨ ub.offset = some 0) :
    windowedGroupOf lb ub = .ok (.rollingFixed (k + 1)) := by
  unfold windowedGroupOf
  rw [if_neg (by rw [h1]; simp), if_pos (by rw [h2, upperCond_eq_true ub h4]; rfl), h3]

/-! ## Python list indexing lemmas -/

theorem pyListGet_nonneg (l : List Int) (i : Int) (h0 : 0 ≤ i) (hl : i < (l.length : Int)) :
    pyListGet l i = .ok (l.getD i.toNat 0) := by
  unfold pyListGet
  have hi : ¬ i < 0 := by omega
  have ht : i.toNat < l.length := by omega
  rw [if_neg hi, if_pos h0, List.getElem?_eq_getElem ht]
  simp [List.getD_eq_getElem?_getD, List.getElem?_eq_getElem ht]

theorem pyListGet_neg_inrange (l : List Int) (i : Int)
    (hneg : i < 0) (hge : -(l.length : Int) ≤ i) :
    pyListGet l i = .ok (l.getD ((l.length : Int) + i).toNat 0) := by
  unfold pyListGet
  have h0 : 0 ≤ (l.length : Int) + i := by omega
  have ht : ((l.length : Int) + i).toNat < l.length := by omega
  rw [if_pos hneg, if_pos h0, List.getElem?_eq_getElem ht]
  simp [List.getD_eq_getElem?_getD, List.getElem?_eq_getElem ht]

theorem pyListGet_out_high (l : List Int) (i : Int) (h : (l.length : Int) ≤ i) :
    pyListGet l i = .error "IndexError: list index out of range" := by
  unfold pyListGet
  have hi : ¬ i < 0 := by omega
  have ht : l.length ≤ i.toNat := by omega
  rw [if_neg hi, if_pos (by omega : (0:Int) ≤ i), List.getElem?_eq_none ht]

theorem pyListGet_out_low (l : List Int) (i : Int) (h : i < -(l.length : Int)) :
    pyListGet l i = .error "IndexError: list index out of range" := by
  unfold pyListGet
  have hneg : i < 0 := by omega
  rw [if_pos hneg, if_neg (by omega : ¬ (0:Int) ≤ (l.length : Int) + i)]

/-! ## Validity of bound descriptions and ordering of signed offsets -/

/-- Modelled from the spec (§3): a well-formed `BoundDescription` — the offset is
present exactly for bounded preceding/following bounds, is non-negative, and the
kind flags are mutually consistent. -/
def validBound (b : BoundDescription) : Prop :=
  (b.offset = none ↔ (b.is_unbounded = true ∨ b.is_current_row = true)) ∧
  (b.is_unbounded = true → b.is_current_row = false) ∧
  (b.is_current_row = true → b.is_preceding = false ∧ b.is_following = false) ∧
  (b.is_preceding = true → b.is_following = false) ∧
  0 ≤ b.offset.getD 0

instance (b : BoundDescription) : Decidable (validBound b) := by
  unfold validBound
  infer_instance

/-- Ordering of two signed offsets, reading a missing lower offset as minus
infinity and a missing upper offset as plus infinity. -/
def sleOpt (s e : Option Int) : Prop :=
  ∀ a b, s = some a → e = some b → a ≤ b

/-! ## Claim theorems C1 to C6 -/

/-- C1 counterexample: the bound pair UNBOUNDED PRECEDING / CURRENT ROW satisfies
fast-path case (1) (`windowedGroupOf` selects the expanding frame), yet the
general branch built from its signed offsets — `Indexer(None, 0)` — raises the
`end == 0` assertion instead of producing the fast-path index sequences, so the
claim that the general branch reproduces the fast paths without raising any
error is false at this concrete input (here at `n = 5`). -/
theorem c1_counterexample :
    windowedGroupOf ⟨true, true, false, false, none⟩ ⟨false, false, false, true, none⟩ =
      .ok .expanding ∧
    generalOffset ⟨true, true, false, false, none⟩ = none ∧
    generalOffset ⟨false, false, false, true, none⟩ = some 0 ∧
    Indexer.get_window_bounds ⟨none, some 0⟩ 5 =
      .error "AssertionError: This case should have been handled before! Please report this bug" := by
  decide

/-- C1 (amended): the pure clamp formulas of the general branch (spec §4.2 branch
(3), with the `end == 0` assertion removed) agree exactly with the fast-path
formulas of cases (1) and (2) for every partition length `n`, and whenever
`Indexer.get_window_bounds` does return arrays they are exactly those formulas;
but on every bound pair equivalent to the fast paths the executed general branch
raises the assertion (upper signed offset `0` is deliberately unhandled). -/
theorem c1_general_formula_agreement (lb ub : BoundDescription) (n : Nat) (k : Int) :
    ((lb.is_unbounded = true ∧ lb.is_current_row = false ∧ lb.offset = none ∧
      (ub.is_current_row = true ∨ ub.offset = some 0)) →
      generalFormulaBounds (generalOffset lb) (generalOffset ub) n = expandingBounds n) ∧
    ((lb.is_unbounded = false ∧ lb.is_current_row = false ∧ lb.is_preceding = true ∧
      lb.offset = some k ∧ 0 ≤ k ∧ (ub.is_current_row = true ∨ ub.offset = some 0)) →
      generalFormulaBounds (generalOffset lb) (generalOffset ub) n =
        rollingFixedBounds (k + 1) n) ∧
    (∀ (idx : Indexer) (r : List Int × List Int), idx.get_window_bounds n = .ok r →
      r = generalFormulaBounds idx.start idx.end_ n) ∧
    ((ub.is_current_row = true ∨ ub.offset = some 0) →
      Indexer.get_window_bounds ⟨generalOffset lb, generalOffset ub⟩ n =
        .error "AssertionError: This case should have been handled before! Please report this bug") := by
  have hendzero : generalEndFormula (some 0) n =
      (List.range n).map (fun (i : Nat) => (i : Int) + 1) := by
    simp only [generalEndFormula, clampInt]
    refine List.map_congr_left (fun i hi => ?_)
    have hin : i < n := List.mem_range.mp hi
    omega
  refine ⟨?_, ?_, ?_, ?_⟩
  · rintro ⟨h1, h2, h3, h4⟩
    rw [generalOffset_of_none lb h2 h3, generalOffset_of_upper_zero ub h4]
    unfold generalFormulaBounds expandingBounds
    exact Prod.ext rfl (by simpa using hendzero)
  · rintro ⟨h1, h2, h3, h4, hk, h5⟩
    rw [generalOffset_of_preceding lb k h2 h3 h4, generalOffset_of_upper_zero ub h5]
    unfold generalFormulaBounds rollingFixedBounds
    refine Prod.ext ?_ (by simpa using hendzero)
    simp only [generalStartFormula, clampInt]
    refine List.map_congr_left (fun i hi => ?_)
    have hin : i < n := List.mem_range.mp hi
    omega
  · exact fun idx r h => get_window_bounds_ok_eq idx n r h
  · intro h
    rw [show generalOffset ub = some 0 from generalOffset_of_upper_zero ub h]
    unfold Indexer.get_window_bounds
    rw [indexerEndList_zero]
    rfl

/-- C1 witness: the amended agreement evaluated on concrete inputs — case (1) at
`n = 5`, case (2) with offset `2` at `n = 100`, and the assertion raised by the
executed general branch at `n = 0`. -/
theorem c1_witness :
    generalFormulaBounds (generalOffset ⟨true, true, false, false, none⟩)
        (generalOffset ⟨false, false, false, true, none⟩) 5 = expandingBounds 5 ∧
    generalFormulaBounds (generalOffset ⟨false, true, false, false, some 2⟩)
        (generalOffset ⟨false, false, false, true, none⟩) 100 = rollingFixedBounds 3 100 ∧
    Indexer.get_window_bounds ⟨generalOffset ⟨true, true, false, false, none⟩,
        generalOffset ⟨false, false, false, true, none⟩⟩ 0 =
      .error "AssertionError: This case should have been handled before! Please report this bug" :=
  ⟨(c1_general_formula_agreement ⟨true, true, false, false, none⟩
      ⟨false, false, false, true, none⟩ 5 0).1 ⟨rfl, rfl, rfl, Or.inl rfl⟩,
   (c1_general_formula_agreement ⟨false, true, false, false, some 2⟩
      ⟨false, false, false, true, none⟩ 100 2).2.1
      ⟨rfl, rfl, rfl, rfl, by decide, Or.inl rfl⟩,
   (c1_general_formula_agreement ⟨true, true, false, false, none⟩
      ⟨false, false, false, true, none⟩ 0 0).2.2.2 (Or.inl rfl)⟩

/-- C2 counterexample: both bounds FOLLOWING 5 and FOLLOWING 2 are valid bound
descriptions, `map_on_each_group` routes them to the general `Indexer` branch,
and `get_window_bounds` returns `start_0 = 5 > end_0 = 3` at `n = 10` — a range
with `end_i < start_i` is returned, falsifying the claimed invariant. -/
theorem c2_counterexample :
    validBound ⟨false, false, true, false, some 5⟩ ∧
    validBound ⟨false, false, true, false, some 2⟩ ∧
    windowedGroupOf ⟨false, false, true, false, some 5⟩ ⟨false, false, true, false, some 2⟩ =
      .ok (.rollingIndexer ⟨some 5, some 2⟩) ∧
    Indexer.get_window_bounds ⟨some 5, some 2⟩ 10 =
      .ok ([5, 6, 7, 8, 9, 10, 10, 10, 10, 10], [3, 4, 5, 6, 7, 8, 9, 10, 10, 10]) ∧
    ([3, 4, 5, 6, 7, 8, 9, 10, 10, 10] : List Int).getD 0 0 <
      ([5, 6, 7, 8, 9, 10, 10, 10, 10, 10] : List Int).getD 0 0 := by
  decide

/-- C2 (amended): for valid bound descriptions whose signed offsets are ordered
(lower at most upper), every frame range the windowing machinery returns
satisfies `0 ≤ start_i ≤ end_i ≤ n`; without the ordering condition the
invariant fails (see the counterexample). -/
theorem c2_frame_invariant_ordered (lb ub : BoundDescription) (n : Nat) (w : Windowed)
    (starts ends : List Int)
    (hvl : validBound lb)
    (hord : sleOpt (generalOffset lb) (generalOffset ub))
    (hw : windowedGroupOf lb ub = .ok w)
    (hb : windowBoundsOf w n = .ok (starts, ends)) :
    ∀ i < n, 0 ≤ starts.getD i 0 ∧ starts.getD i 0 ≤ ends.getD i 0 ∧
      ends.getD i 0 ≤ (n : Int) := by
  unfold windowedGroupOf at hw
  split_ifs at hw with hcond1 hcond2
  · cases hw
    simp only [windowBoundsOf, expandingBounds] at hb
    cases hb
    intro i hi
    rw [getD_replicate_of_lt 0 i n hi, getD_map_range _ i n hi]
    omega
  · cases hoff : lb.offset with
    | none => rw [hoff] at hw; cases hw
    | some k =>
      rw [hoff] at hw
      cases hw
      have hk : 0 ≤ k := by
        have := hvl.2.2.2.2
        rw [hoff] at this
        simpa using this
      simp only [windowBoundsOf, rollingFixedBounds] at hb
      cases hb
      intro i hi
      rw [getD_map_range _ i n hi, getD_map_range _ i n hi]
      omega
  · cases hw
    have heq := get_window_bounds_ok_eq _ n (starts, ends) hb
    have hstart : starts = generalStartFormula (generalOffset lb) n := congrArg Prod.fst heq
    have hend : ends = generalEndFormula (generalOffset ub) n := congrArg Prod.snd heq
    subst hstart hend
    intro i hi
    cases hs : generalOffset lb with
    | none =>
      cases he : generalOffset ub with
      | none =>
        simp only [generalStartFormula, generalEndFormula]
        rw [getD_replicate_of_lt 0 i n hi, getD_replicate_of_lt (n : Int) i n hi]
        omega
      | some bv =>
        simp only [generalStartFormula, generalEndFormula]
        rw [getD_replicate_of_lt 0 i n hi, getD_map_range _ i n hi]
        unfold clampInt
        omega
    | some av =>
      cases he : generalOffset ub with
      | none =>
        simp only [generalStartFormula, generalEndFormula]
        rw [getD_map_range _ i n hi, getD_replicate_of_lt (n : Int) i n hi]
        unfold clampInt
        omega
      | some bv =>
        have hab : av ≤ bv := hord av bv hs he
        simp only [generalStartFormula, generalEndFormula]
        rw [getD_map_range _ i n hi, getD_map_range _ i n hi]
        unfold clampInt
        omega

/-- C2 witness: the ordered-frame invariant evaluated at the concrete bound pair
UNBOUNDED PRECEDING / CURRENT ROW, partition length 5, row position 3. -/
theorem c2_witness :
    (0 : Int) ≤ ([0, 0, 0, 0, 0] : List Int).getD 3 0 ∧
    ([0, 0, 0, 0, 0] : List Int).getD 3 0 ≤ ([1, 2, 3, 4, 5] : List Int).getD 3 0 ∧
    ([1, 2, 3, 4, 5] : List Int).getD 3 0 ≤ ((5 : Nat) : Int) :=
  c2_frame_invariant_ordered ⟨true, true, false, false, none⟩ ⟨false, false, false, true, none⟩
    5 .expanding [0, 0, 0, 0, 0] [1, 2, 3, 4, 5] (by decide)
    (fun a b ha hb => by cases ha) (by decide) (by decide) 3 (by omega)

/-- C3 counterexample: at bounds `Indexer(3, 1)` and `n = 6` the computed frame
for row 0 has `end_0 = 2 < start_0 = 3`, yet `get_window_bounds` raises no
error and returns the malformed range unchanged — there is no
`InvalidFrameBounds` failure anywhere in the code. -/
theorem c3_counterexample :
    Indexer.get_window_bounds ⟨some 3, some 1⟩ 6 =
      .ok ([3, 4, 5, 6, 6, 6], [2, 3, 4, 5, 6, 6]) ∧
    ([2, 3, 4, 5, 6, 6] : List Int).getD 0 0 < ([3, 4, 5, 6, 6, 6] : List Int).getD 0 0 := by
  decide

/-- C3 (amended): whenever the signed offsets satisfy `0 < e` and `e + 1 < s`
(with `e + 1 < n`), the computed frame of row 0 has `end_0 < start_0`, and
`get_window_bounds` silently returns it — it never raises an error for such
malformed combinations (its only error is the unrelated `end == 0` assertion). -/
theorem c3_malformed_returned_silently (s e : Int) (n : Nat)
    (h1 : 0 < e) (h2 : e + 1 < s) (h3 : e + 1 < (n : Int)) :
    ∃ starts ends, Indexer.get_window_bounds ⟨some s, some e⟩ n = .ok (starts, ends) ∧
      ends.getD 0 0 < starts.getD 0 0 := by
  have he : e ≠ 0 := by omega
  have hn : 0 < n := by omega
  refine ⟨indexerStartList (some s) n, generalEndFormula (some e) n, ?_, ?_⟩
  · unfold Indexer.get_window_bounds
    rw [indexerEndList_eq_clamp e n he]
    rfl
  · rw [indexerStartList_eq_clamp]
    simp only [generalStartFormula, generalEndFormula]
    rw [getD_map_range _ 0 n hn, getD_map_range _ 0 n hn]
    unfold clampInt
    omega

/-- C3 witness: the silent malformed-range behavior evaluated at the concrete
offsets `s = 4`, `e = 1`, partition length 7. -/
theorem c3_witness :
    (0 : Int) < 1 ∧ (1 : Int) + 1 < 4 ∧ (1 : Int) + 1 < ((7 : Nat) : Int) ∧
    ∃ starts ends, Indexer.get_window_bounds ⟨some 4, some 1⟩ 7 = .ok (starts, ends) ∧
      ends.getD 0 0 < starts.getD 0 0 :=
  ⟨by decide, by decide, by decide,
   c3_malformed_returned_silently 4 1 7 (by decide) (by decide) (by decide)⟩

/-- C4: bound resolution fails on an offset that is neither a literal nor a
constant-pool reference (the spec's `UnsupportedBoundKind`, raised here by the
spec-modelled literal converter), and succeeds without error on every supported
bound: no offset, a literal offset, or an in-range constant-pool reference. -/
theorem c4_unsupported_bound_kind (b : RawWindowBound) (constants : List Int)
    (cco : Nat) (v : Int) (idx : Nat) :
    (b.offset = some .otherNode →
      to_bound_description b constants cco =
        .error "UnsupportedBoundKind: offset is not a resolvable integer literal") ∧
    (b.offset = none →
      to_bound_description b constants cco =
        .ok ⟨b.isUnbounded, b.isPreceding, b.isFollowing, b.isCurrentRow, none⟩) ∧
    (b.offset = some (.literal v) →
      to_bound_description b constants cco =
        .ok ⟨b.isUnbounded, b.isPreceding, b.isFollowing, b.isCurrentRow, some v⟩) ∧
    (b.offset = some (.inputRef idx) → 0 ≤ (idx : Int) - (cco : Int) →
      (idx : Int) - (cco : Int) < (constants.length : Int) →
      to_bound_description b constants cco =
        .ok ⟨b.isUnbounded, b.isPreceding, b.isFollowing, b.isCurrentRow,
             some (constants.getD ((idx : Int) - (cco : Int)).toNat 0)⟩) := by
  refine ⟨?_, ?_, ?_, ?_⟩
  · intro h
    unfold to_bound_description
    rw [h]
    rfl
  · intro h
    unfold to_bound_description
    rw [h]
  · intro h
    unfold to_bound_description
    rw [h]
    rfl
  · intro h h0 hl
    unfold to_bound_description
    rw [h]
    simp only [resolveOffset, pyListGet_nonneg constants _ h0 hl]
    rfl

/-- C4 witness: each of the four resolution behaviors evaluated on a concrete
raw bound (unsupported offset node, no offset, literal 4, pool reference). -/
theorem c4_witness :
    to_bound_description ⟨some .otherNode, false, true, false, false⟩ [] 0 =
      .error "UnsupportedBoundKind: offset is not a resolvable integer literal" ∧
    to_bound_description ⟨none, true, true, false, false⟩ [] 0 =
      .ok ⟨true, true, false, false, none⟩ ∧
    to_bound_description ⟨some (.literal 4), false, false, true, false⟩ [] 0 =
      .ok ⟨false, false, true, false, some 4⟩ ∧
    to_bound_description ⟨some (.inputRef 2), false, true, false, false⟩ [5, 6, 7] 1 =
      .ok ⟨false, true, false, false, some 6⟩ :=
  ⟨(c4_unsupported_bound_kind ⟨some .otherNode, false, true, false, false⟩ [] 0 0 0).1 rfl,
   (c4_unsupported_bound_kind ⟨none, true, true, false, false⟩ [] 0 0 0).2.1 rfl,
   (c4_unsupported_bound_kind ⟨some (.literal 4), false, false, true, false⟩ [] 0 4 0).2.2.1 rfl,
   (c4_unsupported_bound_kind ⟨some (.inputRef 2), false, true, false, false⟩ [5, 6, 7] 1 0 2).2.2.2
     rfl (by decide) (by decide)⟩

/-- C5: for a constant-pool reference the resolver looks the constant up at
index `getIndex() - constant_count_offset` (the mandated subtraction) and stores
it as a plain integer in the resulting `BoundDescription`; when the raw bound
carries no offset the stored offset is `None`. -/
theorem c5_constant_dereference (b : RawWindowBound) (constants : List Int)
    (cco : Nat) (idx : Nat) :
    (b.offset = some (.inputRef idx) → 0 ≤ (idx : Int) - (cco : Int) →
      (idx : Int) - (cco : Int) < (constants.length : Int) →
      to_bound_description b constants cco =
        .ok ⟨b.isUnbounded, b.isPreceding, b.isFollowing, b.isCurrentRow,
             some (constants.getD ((idx : Int) - (cco : Int)).toNat 0)⟩) ∧
    (b.offset = none →
      to_bound_description b constants cco =
        .ok ⟨b.isUnbounded, b.isPreceding, b.isFollowing, b.isCurrentRow, none⟩) := by
  constructor
  · intro h h0 hl
    unfold to_bound_description
    rw [h]
    simp only [resolveOffset, pyListGet_nonneg constants _ h0 hl]
    rfl
  · intro h
    unfold to_bound_description
    rw [h]

/-- C5 witness: dereference of pool index `3 - 2 = 1` in the pool `[10, 20, 30]`
stores the plain integer 20; an offset-free bound stores `None`. -/
theorem c5_witness :
    to_bound_description ⟨some (.inputRef 3), false, true, false, false⟩ [10, 20, 30] 2 =
      .ok ⟨false, true, false, false, some 20⟩ ∧
    to_bound_description ⟨none, false, false, false, true⟩ [10, 20, 30] 2 =
      .ok ⟨false, false, false, true, none⟩ :=
  ⟨(c5_constant_dereference ⟨some (.inputRef 3), false, true, false, false⟩ [10, 20, 30] 2 3).1
     rfl (by decide) (by decide),
   (c5_constant_dereference ⟨none, false, false, false, true⟩ [10, 20, 30] 2 3).2 rfl⟩

/-- C6 counterexample: a pool reference whose dereferenced index is `0 - 1 = -1`
(outside `[0, pool length)`) does not fail — Python negative indexing silently
wraps around and resolves to the last pool constant (`7`), falsifying the claim
that every out-of-range dereference fails fatally. -/
theorem c6_counterexample :
    to_bound_description ⟨some (.inputRef 0), false, true, false, false⟩ [7] 1 =
      .ok ⟨false, true, false, false, some 7⟩ ∧
    ((0 : Int) - 1 < 0) := by
  decide

/-- C6 (amended): a pool dereference fails fatally (with `IndexError`) exactly
when the dereferenced index falls outside `[-pool length, pool length)`; for a
negative index still at least `-pool length`, Python list indexing silently
wraps around and another pool constant (`pool[length + index]`) is resolved. -/
theorem c6_dereference_range (b : RawWindowBound) (constants : List Int)
    (cco : Nat) (idx : Nat) (hb : b.offset = some (.inputRef idx)) :
    (((constants.length : Int) ≤ (idx : Int) - (cco : Int) ∨
       (idx : Int) - (cco : Int) < -(constants.length : Int)) →
      to_bound_description b constants cco = .error "IndexError: list index out of range") ∧
    (-(constants.length : Int) ≤ (idx : Int) - (cco : Int) → (idx : Int) - (cco : Int) < 0 →
      to_bound_description b constants cco =
        .ok ⟨b.isUnbounded, b.isPreceding, b.isFollowing, b.isCurrentRow,
             some (constants.getD
               ((constants.length : Int) + ((idx : Int) - (cco : Int))).toNat 0)⟩) := by
  constructor
  · intro h
    unfold to_bound_description
    rw [hb]
    rcases h with h | h
    · simp only [resolveOffset, pyListGet_out_high constants _ h]
    · simp only [resolveOffset, pyListGet_out_low constants _ h]
  · intro hge hneg
    unfold to_bound_description
    rw [hb]
    simp only [resolveOffset, pyListGet_neg_inrange constants _ hneg hge]
    rfl

/-- C6 witness: the dereference behavior at index `0 - 3 = -3` with a pool of
length 2 (fatal `IndexError`) and at index `0 - 1 = -1` (silent wrap-around to
the constant `9` at position 1). -/
theorem c6_witness :
    to_bound_description ⟨some (.inputRef 0), false, true, false, false⟩ [7, 9] 3 =
      .error "IndexError: list index out of range" ∧
    to_bound_description ⟨some (.inputRef 0), false, true, false, false⟩ [7, 9] 1 =
      .ok ⟨false, true, false, false, some 9⟩ :=
  ⟨(c6_dereference_range ⟨some (.inputRef 0), false, true, false, false⟩ [7, 9] 3 0 rfl).1
     (Or.inr (by decide)),
   (c6_dereference_range ⟨some (.inputRef 0), false, true, false, false⟩ [7, 9] 1 0 rfl).2
     (by decide) (by decide)⟩

/-! ## Claim C7: unknown operators fail during extraction -/

/-- An operator name known to the system: present (after lowercasing) in the
built-in `OPERATION_MAPPING` or in the user-defined `context.functions`. -/
def knownOperator (ctx : List (String × OverOp)) (name : String) : Prop :=
  (OPERATION_MAPPING.lookup (pyLower name)).isSome = true ∨
  (ctx.lookup (pyLower name)).isSome = true

theorem lookupOperation_known (ctx : List (String × OverOp)) (name : String)
    (h : knownOperator ctx name) : ∃ op, lookupOperation ctx name = .ok op := by
  unfold lookupOperation
  cases hm : OPERATION_MAPPING.lookup (pyLower name) with
  | some op => exact ⟨op, rfl⟩
  | none =>
    cases hc : ctx.lookup (pyLower name) with
    | some f => exact ⟨some f, rfl⟩
    | none =>
      rcases h with h | h
      · rw [hm] at h; cases h
      · rw [hc] at h; cases h

theorem lookupOperation_unknown (ctx : List (String × OverOp)) (name : String)
    (h : ¬ knownOperator ctx name) :
    lookupOperation ctx name =
      .error ("NotImplementedError: " ++ pyLower name ++ " not (yet) implemented") := by
  unfold lookupOperation
  have h1 : OPERATION_MAPPING.lookup (pyLower name) = none := by
    cases hm : OPERATION_MAPPING.lookup (pyLower name) with
    | some op => exact absurd (Or.inl (by rw [hm]; rfl)) h
    | none => rfl
  have h2 : ctx.lookup (pyLower name) = none := by
    cases hc : ctx.lookup (pyLower name) with
    | some f => exact absurd (Or.inr (by rw [hc]; rfl)) h
    | none => rfl
  rw [h1, h2]

theorem extract_operations_ok_of_known (ctx : List (String × OverOp)) :
    ∀ (calls : List AggCall) (df : Table),
      (∀ c ∈ calls, knownOperator ctx c.opName) →
      ∃ r, extract_operations ctx df calls = .ok r
  | [], df, _ => ⟨([], df), rfl⟩
  | c :: rest, df, h => by
    obtain ⟨op, hop⟩ := lookupOperation_known ctx c.opName (h c (by simp))
    obtain ⟨⟨ops, df3⟩, hrest⟩ :=
      extract_operations_ok_of_known ctx rest
        (c.operands.foldl (fun d oc => assignFn d oc.1 oc.2) df)
        (fun x hx => h x (by simp [hx]))
    refine ⟨((op, c.newColumn, c.operands.map (·.1)) :: ops, df3), ?_⟩
    unfold extract_operations
    rw [hop, hrest]

theorem extract_operations_error_of_unknown (ctx : List (String × OverOp)) :
    ∀ (calls : List AggCall) (df : Table),
      (¬ ∀ c ∈ calls, knownOperator ctx c.opName) →
      ∃ msg, extract_operations ctx df calls = .error msg ∧
        (∀ df2 : Table, extract_operations ctx df2 calls = .error msg)
  | [], df, h => absurd (fun c hc => absurd hc (List.not_mem_nil c)) h
  | c :: rest, df, h => by
    by_cases hk : knownOperator ctx c.opName
    · have hrest : ¬ ∀ x ∈ rest, knownOperator ctx x.opName := by
        intro hall
        exact h (fun x hx => by
          rcases List.mem_cons.mp hx with hx | hx
          · rw [hx]; exact hk
          · exact hall x hx)
      obtain ⟨op, hop⟩ := lookupOperation_known ctx c.opName hk
      obtain ⟨msg, hmsg, hany⟩ :=
        extract_operations_error_of_unknown ctx rest
          (c.operands.foldl (fun d oc => assignFn d oc.1 oc.2) df) hrest
      refine ⟨msg, ?_, ?_⟩
      · unfold extract_operations
        rw [hop, hany]
      · intro df2
        unfold extract_operations
        rw [hop, hany]
    · refine ⟨"NotImplementedError: " ++ pyLower c.opName ++ " not (yet) implemented", ?_, ?_⟩
      · unfold extract_operations
        rw [lookupOperation_unknown ctx c.opName hk]
      · intro df2
        unfold extract_operations
        rw [lookupOperation_unknown ctx c.opName hk]

/-- C7: if every aggregate call names a known operator (built-in or
user-defined), operation extraction succeeds; if any call names an operator
absent from both registries, extraction raises `NotImplementedError` (the
spec's `UnsupportedOperator`) and the whole `apply_window` fails with that very
error — extraction happens before the per-partition work, so no partition is
processed and no output is produced. -/
theorem c7_unsupported_operator (ctx : List (String × OverOp)) (df : Table)
    (calls : List AggCall) :
    ((∀ c ∈ calls, knownOperator ctx c.opName) →
      ∃ r, extract_operations ctx df calls = .ok r) ∧
    ((¬ ∀ c ∈ calls, knownOperator ctx c.opName) →
      ∀ gcols scols sasc snf lb ub, ∃ msg,
        apply_window df gcols calls ctx scols sasc snf lb ub = .error msg ∧
        extract_operations ctx (extract_groupby df gcols).1 calls = .error msg) := by
  constructor
  · exact fun h => extract_operations_ok_of_known ctx calls df h
  · intro h gcols scols sasc snf lb ub
    obtain ⟨msg, _, hany⟩ := extract_operations_error_of_unknown ctx calls df h
    refine ⟨msg, ?_, hany _⟩
    unfold apply_window
    rw [hany (extract_groupby df gcols).1]

/-- C7 witness: extraction succeeds for the known name `SUM` and the whole
window application fails with `NotImplementedError` for the unknown name
`frobnicate`. -/
theorem c7_witness :
    (∃ r, extract_operations [] [[("a", 5)]] [⟨"SUM", [], "w"⟩] = .ok r) ∧
    (∃ msg, apply_window [[("a", 5)]] [("g", fun _ => 1)] [⟨"frobnicate", [], "w"⟩] []
        [] [] [] ⟨true, true, false, false, none⟩ ⟨false, false, false, true, none⟩ =
          .error msg ∧
      extract_operations []
        (extract_groupby [[("a", 5)]] [("g", fun _ => 1)]).1 [⟨"frobnicate", [], "w"⟩] =
          .error msg) :=
  ⟨(c7_unsupported_operator [] [[("a", 5)]] [⟨"SUM", [], "w"⟩]).1
     (fun c hc => by
       have hc2 : c = (⟨"SUM", [], "w"⟩ : AggCall) := by simpa using hc
       rw [hc2]
       exact Or.inl (by decide)),
   (c7_unsupported_operator [] [[("a", 5)]] [⟨"frobnicate", [], "w"⟩]).2
     (fun hall => by
       have hk := hall ⟨"frobnicate", [], "w"⟩ (by simp)
       rcases hk with hk | hk
       · revert hk; decide
       · revert hk; decide)
     [("g", fun _ => 1)] [] [] [] ⟨true, true, false, false, none⟩
     ⟨false, false, false, true, none⟩⟩

/-! ## Row-level lemmas about setField, dropFields and lookup -/

theorem lookup_cons_eq (k : String) (w : Int) (l : Row) (name : String) :
    ((k, w) :: l).lookup name = if name = k then some w else l.lookup name := by
  by_cases h : name = k
  · subst h
    simp
  · have hb : (name == k) = false := by simpa using h
    simp [List.lookup, hb, h]

theorem setField_of_fresh (r : Row) (name : String) (v : Int)
    (h : r.lookup name = none) : setField r name v = r ++ [(name, v)] := by
  simp [setField, h]

theorem filter_map_replace (cols : List String) (name : String) (v : Int) (h : name ∈ cols) :
    ∀ r : Row,
      (r.map (fun p => if p.1 = name then (name, v) else p)).filter
          (fun p => decide (p.1 ∉ cols)) =
        r.filter (fun p => decide (p.1 ∉ cols))
  | [] => rfl
  | p :: rest => by
    simp only [List.map_cons, List.filter_cons]
    by_cases hp : p.1 = name
    · rw [if_pos hp]
      have h1 : decide (((name, v) : String × Int).1 ∉ cols) = false := by simp [h]
      have h2 : decide (p.1 ∉ cols) = false := by simp [hp, h]
      rw [h1, h2, if_neg (by simp), if_neg (by simp)]
      exact filter_map_replace cols name v h rest
    · rw [if_neg hp]
      rw [filter_map_replace cols name v h rest]

theorem dropFields_setField (cols : List String) (r : Row) (name : String) (v : Int)
    (h : name ∈ cols) : dropFields cols (setField r name v) = dropFields cols r := by
  unfold setField dropFields
  by_cases hs : (r.lookup name).isSome = true
  · rw [if_pos hs]
    exact filter_map_replace cols name v h r
  · rw [if_neg hs, List.filter_append]
    have hone : List.filter (fun p => decide (p.1 ∉ cols)) [(name, v)] = [] := by
      simp only [List.filter_cons, List.filter_nil]
      rw [if_neg]
      simp [h]
    rw [hone, List.append_nil]

theorem dropFields_eq_self (cols : List String) (r : Row)
    (h : ∀ a ∈ cols, r.lookup a = none) : dropFields cols r = r := by
  unfold dropFields
  rw [List.filter_eq_self]
  intro p hp
  simp only [decide_eq_true_eq]
  intro hmem
  have h2 := h p.1 hmem
  rw [List.lookup_eq_none_iff] at h2
  have h3 := h2 p hp
  simp at h3

theorem dropFields_lookup_of_mem (cols : List String) (name : String) (h : name ∈ cols)
    (r : Row) : (dropFields cols r).lookup name = none := by
  rw [List.lookup_eq_none_iff]
  intro p hp
  have hnot : p.1 ∉ cols := by simpa using List.of_mem_filter hp
  simp only [bne_iff_ne]
  rintro rfl
  exact hnot h

theorem dropFields_lookup_of_not_mem (cols : List String) (name : String) (h : name ∉ cols) :
    ∀ r : Row, (dropFields cols r).lookup name = r.lookup name
  | [] => rfl
  | p :: rest => by
    obtain ⟨k, w⟩ := p
    by_cases hk : k ∈ cols
    · have hstep : dropFields cols ((k, w) :: rest) = dropFields cols rest := by
        unfold dropFields
        rw [List.filter_cons, if_neg (by simpa using hk)]
      have hne : name ≠ k := by
        rintro rfl
        exact h hk
      rw [hstep, dropFields_lookup_of_not_mem cols name h rest,
        lookup_cons_eq k w rest name, if_neg hne]
    · have hstep : dropFields cols ((k, w) :: rest) = (k, w) :: dropFields cols rest := by
        unfold dropFields
        rw [List.filter_cons, if_pos (by simpa using hk)]
      rw [hstep, lookup_cons_eq k w (dropFields cols rest) name, lookup_cons_eq k w rest name]
      by_cases hne : name = k
      · rw [if_pos hne, if_pos hne]
      · rw [if_neg hne, if_neg hne]
        exact dropFields_lookup_of_not_mem cols name h rest

theorem dropFields_dropFields_subset (inner outer : List String)
    (hsub : ∀ a ∈ inner, a ∈ outer) (r : Row) :
    dropFields outer (dropFields inner r) = dropFields outer r := by
  unfold dropFields
  rw [List.filter_filter]
  refine List.filter_congr (fun p hp => ?_)
  by_cases ho : p.1 ∈ outer
  · simp [ho]
  · have hi : p.1 ∉ inner := fun hmem => ho (hsub p.1 hmem)
    simp [ho, hi]

theorem lookup_map_replace (name : String) (v : Int) :
    ∀ r : Row, (r.lookup name).isSome = true →
      (r.map (fun p => if p.1 = name then (name, v) else p)).lookup name = some v
  | [], h => by simp at h
  | (k, w) :: rest, h => by
    by_cases hk : k = name
    · subst hk
      simp [lookup_cons_eq]
    · have h2 : (rest.lookup name).isSome = true := by
        rw [lookup_cons_eq k w rest name, if_neg (fun hh => hk hh.symm)] at h
        exact h
      have hmap : ((k, w) :: rest).map (fun p => if p.1 = name then (name, v) else p) =
          (k, w) :: rest.map (fun p => if p.1 = name then (name, v) else p) := by
        simp [hk]
      rw [hmap, lookup_cons_eq k w _ name, if_neg (fun hh => hk hh.symm)]
      exact lookup_map_replace name v rest h2

theorem setField_lookup_self (r : Row) (name : String) (v : Int) :
    ((setField r name v).lookup name).isSome = true := by
  unfold setField
  by_cases hs : (r.lookup name).isSome = true
  · rw [if_pos hs, lookup_map_replace name v r hs]
    rfl
  · rw [if_neg hs, List.lookup_append]
    have hnone : r.lookup name = none := by
      cases ho : r.lookup name
      · rfl
      · rw [ho] at hs; simp at hs
    rw [hnone]
    simp [lookup_cons_eq]

theorem lookup_map_replace_other (name m : String) (v : Int) (hne : m ≠ name) :
    ∀ r : Row,
      (r.map (fun p => if p.1 = name then (name, v) else p)).lookup m = r.lookup m
  | [] => rfl
  | (k, w) :: rest => by
    by_cases hk : k = name
    · have hmap : (((k, w) :: rest).map (fun p => if p.1 = name then (name, v) else p)) =
          (name, v) :: rest.map (fun p => if p.1 = name then (name, v) else p) := by
        simp [hk]
      rw [hmap, lookup_cons_eq name v _ m, if_neg hne, lookup_cons_eq k w rest m,
        if_neg (by rw [hk]; exact hne)]
      exact lookup_map_replace_other name m v hne rest
    · have hmap : (((k, w) :: rest).map (fun p => if p.1 = name then (name, v) else p)) =
          (k, w) :: rest.map (fun p => if p.1 = name then (name, v) else p) := by
        simp [hk]
      rw [hmap, lookup_cons_eq k w _ m, lookup_cons_eq k w rest m]
      by_cases hm : m = k
      · rw [if_pos hm, if_pos hm]
      · rw [if_neg hm, if_neg hm]
        exact lookup_map_replace_other name m v hne rest

theorem setField_preserves_lookup_isSome (r : Row) (name m : String) (v : Int)
    (h : (r.lookup m).isSome = true) : ((setField r name v).lookup m).isSome = true := by
  unfold setField
  by_cases hs : (r.lookup name).isSome = true
  · rw [if_pos hs]
    by_cases hm : m = name
    · subst hm
      rw [lookup_map_replace m v r hs]
      rfl
    · rw [lookup_map_replace_other name m v hm r]
      exact h
  · rw [if_neg hs, List.lookup_append]
    cases ho : r.lookup m
    · rw [ho] at h; simp at h
    · rfl

/-! ## Lemmas about batch assignment -/

theorem listGetD_map_range {α : Type} (f : Nat → α) (d : α) (i n : Nat) (h : i < n) :
    ((List.range n).map f).getD i d = f i := by
  simp [List.getD_eq_getElem?_getD, List.getElem?_range, h]

theorem map_range_getD {α β : Type} (d : α) (l : List α) (g : α → β) :
    (List.range l.length).map (fun i => g (l.getD i d)) = l.map g := by
  apply List.ext_getElem
  · simp
  · intro i h1 h2
    simp only [List.getElem_map, List.getElem_range]
    rw [List.getD_eq_getElem?_getD, List.getElem?_eq_getElem (by simpa using h2)]
    rfl

theorem foldl_setField_append (cols : List (String × List Int)) (i : Nat) :
    ∀ b : Row, (∀ c ∈ cols, b.lookup c.1 = none) → ((cols.map Prod.fst).Nodup) →
      cols.foldl (fun acc c => setField acc c.1 (c.2.getD i 0)) b = b ++ rowFields cols i := by
  induction cols with
  | nil => intro b _ _; simp [rowFields]
  | cons c rest ih =>
    intro b hf hnd
    have hnd2 : c.1 ∉ rest.map Prod.fst ∧ (rest.map Prod.fst).Nodup := by
      rw [List.map_cons] at hnd
      exact List.nodup_cons.mp hnd
    simp only [List.foldl_cons]
    rw [setField_of_fresh b c.1 _ (hf c (by simp))]
    have hf2 : ∀ x ∈ rest, (b ++ [(c.1, c.2.getD i 0)]).lookup x.1 = none := by
      intro x hx
      rw [List.lookup_append, hf x (by simp [hx])]
      have hxc : x.1 ≠ c.1 := by
        rintro he
        exact hnd2.1 (he ▸ List.mem_map.mpr ⟨x, hx, rfl⟩)
      rw [lookup_cons_eq c.1 (c.2.getD i 0) [] x.1, if_neg hxc]
      rfl
    rw [ih _ hf2 hnd2.2]
    simp [rowFields, List.append_assoc]

theorem lookup_rowFields (cols : List (String × List Int)) (i : Nat) (name : String)
    (vals : List Int) (hmem : (name, vals) ∈ cols) (hnd : (cols.map Prod.fst).Nodup) :
    (rowFields cols i).lookup name = some (vals.getD i 0) := by
  induction cols with
  | nil => cases hmem
  | cons c rest ih =>
    have hnd2 : c.1 ∉ rest.map Prod.fst ∧ (rest.map Prod.fst).Nodup := by
      rw [List.map_cons] at hnd
      exact List.nodup_cons.mp hnd
    rcases List.mem_cons.mp hmem with h | h
    · cases h.symm
      have hrow : rowFields ((name, vals) :: rest) i =
          (name, vals.getD i 0) :: rowFields rest i := rfl
      rw [hrow, lookup_cons_eq, if_pos rfl]
    · have hne : name ≠ c.1 := by
        rintro hcf
        exact hnd2.1 (hcf ▸ List.mem_map.mpr ⟨(name, vals), h, rfl⟩)
      have hrow : rowFields (c :: rest) i = (c.1, c.2.getD i 0) :: rowFields rest i := rfl
      rw [hrow, lookup_cons_eq, if_neg hne]
      exact ih h hnd2.2

theorem rowFields_keys_mem (cols : List (String × List Int)) (i : Nat) (p : String × Int)
    (hp : p ∈ rowFields cols i) : p.1 ∈ cols.map Prod.fst := by
  unfold rowFields at hp
  obtain ⟨c, hc, rfl⟩ := List.mem_map.mp hp
  exact List.mem_map.mpr ⟨c, hc, rfl⟩

theorem assignAll_length (df : Table) (cols : List (String × List Int)) :
    (assignAll df cols).length = df.length := by
  simp [assignAll]

theorem mem_assignAll (df : Table) (cols : List (String × List Int)) (r : Row)
    (hr : r ∈ assignAll df cols) :
    ∃ i, i < df.length ∧
      r = cols.foldl (fun acc c => setField acc c.1 (c.2.getD i 0)) (df.getD i []) := by
  unfold assignAll at hr
  obtain ⟨i, hi, rfl⟩ := List.mem_map.mp hr
  exact ⟨i, List.mem_range.mp hi, rfl⟩

theorem dropFields_foldl_setField (added : List String) (cols : List (String × List Int))
    (i : Nat) (hsub : ∀ c ∈ cols, c.1 ∈ added) :
    ∀ b : Row,
      dropFields added (cols.foldl (fun acc c => setField acc c.1 (c.2.getD i 0)) b) =
        dropFields added b := by
  induction cols with
  | nil => intro b; rfl
  | cons c rest ih =>
    intro b
    simp only [List.foldl_cons]
    rw [ih (fun x hx => hsub x (by simp [hx])),
      dropFields_setField added b c.1 _ (hsub c (by simp))]

theorem assignAll_map_dropFields (added : List String) (df : Table)
    (cols : List (String × List Int)) (hsub : ∀ c ∈ cols, c.1 ∈ added) :
    (assignAll df cols).map (dropFields added) = df.map (dropFields added) := by
  unfold assignAll
  rw [List.map_map]
  have hpt : ∀ i ∈ List.range df.length,
      (dropFields added ∘ fun i =>
        cols.foldl (fun acc c => setField acc c.1 (c.2.getD i 0)) (df.getD i [])) i =
      dropFields added (df.getD i []) := by
    intro i _
    exact dropFields_foldl_setField added cols i hsub (df.getD i [])
  rw [List.map_congr_left hpt]
  exact map_range_getD [] df (dropFields added)

theorem foldl_setField_preserves_isSome (cols : List (String × List Int)) (i : Nat)
    (m : String) :
    ∀ b : Row, (b.lookup m).isSome = true →
      ((cols.foldl (fun acc c => setField acc c.1 (c.2.getD i 0)) b).lookup m).isSome = true := by
  induction cols with
  | nil => intro b h; exact h
  | cons c rest ih =>
    intro b h
    simp only [List.foldl_cons]
    exact ih _ (setField_preserves_lookup_isSome b c.1 m _ h)

theorem foldl_setField_lookup_isSome (cols : List (String × List Int)) (i : Nat)
    (name : String) (h : name ∈ cols.map Prod.fst) :
    ∀ b : Row,
      ((cols.foldl (fun acc c => setField acc c.1 (c.2.getD i 0)) b).lookup name).isSome = true := by
  induction cols with
  | nil => simp at h
  | cons c rest ih =>
    intro b
    have h2 : name = c.1 ∨ name ∈ rest.map Prod.fst := by
      rw [List.map_cons] at h
      exact List.mem_cons.mp h
    simp only [List.foldl_cons]
    rcases h2 with hh | hh
    · subst hh
      exact foldl_setField_preserves_isSome rest i _ _ (setField_lookup_self b _ _)
    · exact ih hh _

theorem assignFn_map_dropFields (added : List String) (df : Table) (name : String)
    (f : Row → Int) (h : name ∈ added) :
    (assignFn df name f).map (dropFields added) = df.map (dropFields added) := by
  unfold assignFn
  rw [List.map_map]
  exact List.map_congr_left (fun r _ => dropFields_setField added r name (f r) h)

theorem foldl_assignFn_map_dropFields (added : List String)
    (gcols : List (String × (Row → Int))) :
    ∀ df : Table, (∀ c ∈ gcols, c.1 ∈ added) →
      ((gcols.foldl (fun d c => assignFn d c.1 c.2) df).map (dropFields added)) =
        df.map (dropFields added) := by
  induction gcols with
  | nil => intro df _; rfl
  | cons c rest ih =>
    intro df hsub
    simp only [List.foldl_cons]
    rw [ih _ (fun x hx => hsub x (by simp [hx])),
      assignFn_map_dropFields added df c.1 c.2 (hsub c (by simp))]

/-! ## Partitioning and per-group structure lemmas -/

theorem getD_mem_of_lt {α : Type} (l : List α) (d : α) (i : Nat) (h : i < l.length) :
    l.getD i d ∈ l := by
  rw [List.getD_eq_getElem?_getD, List.getElem?_eq_getElem h]
  exact List.getElem_mem h

theorem flatMap_filter_key_perm {κ α : Type} [DecidableEq κ] (key : α → κ) :
    ∀ (ks : List κ) (l : List α), ks.Nodup → (∀ a ∈ l, key a ∈ ks) →
      List.Perm (ks.flatMap (fun k => l.filter (fun a => decide (key a = k)))) l
  | [], l, _, hcov => by
    have hl : l = [] := by
      cases l with
      | nil => rfl
      | cons a rest => exact absurd (hcov a (by simp)) (List.not_mem_nil _)
    subst hl
    simp
  | k :: ks, l, hnd, hcov => by
    have hnd2 : k ∉ ks ∧ ks.Nodup := List.nodup_cons.mp hnd
    rw [List.flatMap_cons]
    have hcongr : ks.flatMap (fun kk => l.filter (fun a => decide (key a = kk))) =
        ks.flatMap (fun kk =>
          (l.filter (fun a => !decide (key a = k))).filter
            (fun a => decide (key a = kk))) := by
      refine List.flatMap_congr (fun kk hkk => ?_)
      rw [List.filter_filter]
      refine List.filter_congr (fun a _ => ?_)
      by_cases hak : key a = kk
      · have hkneq : kk ≠ k := by
          rintro rfl
          exact hnd2.1 hkk
        simp [hak, hkneq]
      · simp [hak]
    have hcov2 : ∀ a ∈ l.filter (fun a => !decide (key a = k)), key a ∈ ks := by
      intro a ha
      obtain ⟨hal, hcond⟩ := List.mem_filter.mp ha
      have hne : key a ≠ k := by simpa using hcond
      rcases List.mem_cons.mp (hcov a hal) with h | h
      · exact absurd h hne
      · exact h
    have ihp := flatMap_filter_key_perm key ks
      (l.filter (fun a => !decide (key a = k))) hnd2.2 hcov2
    rw [hcongr]
    exact (ihp.append_left _).trans (List.filter_append_perm _ l)

theorem applyToGroups_ok_perm (df : Table) (gn : List String)
    (f : Table → Except String Table) (φ : Row → Row)
    (hgood : ∀ g h2, f g = .ok h2 → List.Perm (h2.map φ) (g.map φ)) :
    ∀ (ks : List (List (Option Int))) (res : Table),
      applyToGroups df gn f ks = .ok res →
      List.Perm (res.map φ)
        ((ks.flatMap (fun k => df.filter (fun r => decide (rowKey gn r = k)))).map φ)
  | [], res, h => by
    cases h
    simp
  | k :: ks, res, h => by
    unfold applyToGroups at h
    cases hg : f (df.filter (fun r => decide (rowKey gn r = k))) with
    | error msg => rw [hg] at h; cases h
    | ok g =>
      rw [hg] at h
      cases hrest : applyToGroups df gn f ks with
      | error msg => rw [hrest] at h; cases h
      | ok rest =>
        rw [hrest] at h
        cases h
        rw [List.flatMap_cons, List.map_append, List.map_append]
        exact (hgood _ g hg).append (applyToGroups_ok_perm df gn f φ hgood ks rest hrest)

theorem applyToGroups_ok_mem (df : Table) (gn : List String)
    (f : Table → Except String Table) (P : Row → Prop)
    (hgood : ∀ g h2, f g = .ok h2 → ∀ r ∈ h2, P r) :
    ∀ (ks : List (List (Option Int))) (res : Table),
      applyToGroups df gn f ks = .ok res → ∀ r ∈ res, P r
  | [], res, h => by
    cases h
    intro r hr
    cases hr
  | k :: ks, res, h => by
    unfold applyToGroups at h
    cases hg : f (df.filter (fun r => decide (rowKey gn r = k))) with
    | error msg => rw [hg] at h; cases h
    | ok g =>
      rw [hg] at h
      cases hrest : applyToGroups df gn f ks with
      | error msg => rw [hrest] at h; cases h
      | ok rest =>
        rw [hrest] at h
        cases h
        intro r hr
        rcases List.mem_append.mp hr with hr | hr
        · exact hgood _ g hg r hr
        · exact applyToGroups_ok_mem df gn f P hgood ks rest hrest r hr

theorem groupby_apply_ok_perm (df : Table) (gn : List String)
    (f : Table → Except String Table) (φ : Row → Row) (res : Table)
    (hgood : ∀ g h2, f g = .ok h2 → List.Perm (h2.map φ) (g.map φ))
    (h : groupby_apply df gn f = .ok res) :
    List.Perm (res.map φ) (df.map φ) := by
  unfold groupby_apply at h
  have h1 := applyToGroups_ok_perm df gn f φ hgood _ res h
  have h2 : List.Perm
      (((df.map (rowKey gn)).dedup).flatMap
        (fun k => df.filter (fun r => decide (rowKey gn r = k)))) df :=
    flatMap_filter_key_perm (rowKey gn) _ df (List.nodup_dedup _)
      (fun a ha => List.mem_dedup.mpr (List.mem_map.mpr ⟨a, ha, rfl⟩))
  exact h1.trans (h2.map φ)

theorem groupby_apply_ok_mem (df : Table) (gn : List String)
    (f : Table → Except String Table) (P : Row → Prop) (res : Table)
    (hgood : ∀ g h2, f g = .ok h2 → ∀ r ∈ h2, P r)
    (h : groupby_apply df gn f = .ok res) : ∀ r ∈ res, P r := by
  unfold groupby_apply at h
  exact applyToGroups_ok_mem df gn f P hgood _ res h

theorem extract_operations_ok_parts (ctx : List (String × OverOp)) (added : List String) :
    ∀ (calls : List AggCall) (df : Table)
      (ops : List (Option OverOp × String × List String)) (df2 : Table),
      extract_operations ctx df calls = .ok (ops, df2) →
      ops.map (fun o => o.2.1) = calls.map AggCall.newColumn ∧
      ops.map (fun o => o.2.2) = calls.map (fun c => c.operands.map Prod.fst) ∧
      ((∀ c ∈ calls, ∀ oc ∈ c.operands, oc.1 ∈ added) →
        df2.map (dropFields added) = df.map (dropFields added))
  | [], df, ops, df2, h => by
    cases h
    exact ⟨rfl, rfl, fun _ => rfl⟩
  | c :: rest, df, ops, df2, h => by
    unfold extract_operations at h
    cases hop : lookupOperation ctx c.opName with
    | error msg => rw [hop] at h; cases h
    | ok op =>
      rw [hop] at h
      cases hrest : extract_operations ctx
          (c.operands.foldl (fun d oc => assignFn d oc.1 oc.2) df) rest with
      | error msg => rw [hrest] at h; cases h
      | ok pr =>
        obtain ⟨ops3, df3⟩ := pr
        rw [hrest] at h
        cases h
        obtain ⟨ih1, ih2, ih3⟩ := extract_operations_ok_parts ctx added rest _ _ _ hrest
        refine ⟨by simp [ih1], by simp [ih2], ?_⟩
        intro hsub
        rw [ih3 (fun x hx oc hoc => hsub x (by simp [hx]) oc hoc)]
        exact foldl_assignFn_map_dropFields added c.operands df
          (fun oc hoc => hsub c (by simp) oc hoc)

theorem computeNewColumns_ok_parts (w : Windowed) (g1 : Table) :
    ∀ (ops : List (Option OverOp × String × List String))
      (cols : List (String × List Int)),
      computeNewColumns w g1 ops = .ok cols →
      cols.map Prod.fst = ops.map (fun o => o.2.1) ∧
      (∀ (name : String) (opc : List String), (none, name, opc) ∈ ops →
        (name, (List.range g1.length).map (fun (i : Nat) => (i : Int) + 1)) ∈ cols)
  | [], cols, h => by
    cases h
    exact ⟨rfl, fun name opc hmem => absurd hmem (List.not_mem_nil _)⟩
  | (fop, name0, opcols) :: rest, cols, h => by
    unfold computeNewColumns at h
    cases hcol : computeColumn w g1 fop opcols with
    | error msg => rw [hcol] at h; cases h
    | ok col =>
      rw [hcol] at h
      cases hrest : computeNewColumns w g1 rest with
      | error msg => rw [hrest] at h; cases h
      | ok others =>
        rw [hrest] at h
        cases h
        obtain ⟨ih1, ih2⟩ := computeNewColumns_ok_parts w g1 rest others hrest
        constructor
        · simp [ih1]
        · intro name opc hmem
          rcases List.mem_cons.mp hmem with hm | hm
          · injection hm with hm1 hm2
            injection hm2 with hm2 hm3
            subst hm1
            subst hm2
            have hcol2 : col = (List.range g1.length).map (fun (i : Nat) => (i : Int) + 1) := by
              simp only [computeColumn] at hcol
              exact (Except.ok.injEq _ _).mp hcol.symm
            rw [hcol2]
            exact List.mem_cons_self _ _
          · exact List.mem_cons.mpr (Or.inr (ih2 name opc hm))

theorem sortedPartition_perm (scols : List String) (sasc snf : List Bool) (g : Table) :
    List.Perm (sortedPartition scols sasc snf g) g := by
  unfold sortedPartition
  split
  · exact List.Perm.refl g
  · exact List.perm_insertionSort _ g

theorem map_on_each_group_ok_parts (scols : List String) (sasc snf : List Bool)
    (lb ub : BoundDescription) (ops : List (Option OverOp × String × List String))
    (g h2 : Table) (hok : map_on_each_group scols sasc snf lb ub ops g = .ok h2) :
    ∃ cols : List (String × List Int),
      h2 = assignAll (sortedPartition scols sasc snf g) cols ∧
      cols.map Prod.fst = ops.map (fun o => o.2.1) ∧
      (∀ (name : String) (opc : List String), (none, name, opc) ∈ ops →
        (name, (List.range (sortedPartition scols sasc snf g).length).map
          (fun (i : Nat) => (i : Int) + 1)) ∈ cols) := by
  unfold map_on_each_group at hok
  split at hok
  · cases hok
  · split at hok
    · cases hok
    · rename_i w _ _ cols hcols
      cases hok
      obtain ⟨h1, h3⟩ := computeNewColumns_ok_parts w _ ops cols hcols
      exact ⟨cols, rfl, h1, h3⟩

/-! ## Claims C8 and C9 -/

/-- C8: whenever `map_on_each_group` succeeds, the column produced for a
row_number operation (operator `None`) is exactly `[1, 2, ..., n]` for the
partition length `n`, regardless of the sort specification, of the sort-key
values, and of the window group's lower/upper frame bounds (the row_number
branch never consults the windowing object). -/
theorem c8_row_number_column (scols : List String) (sasc snf : List Bool)
    (lb ub : BoundDescription) (ops : List (Option OverOp × String × List String))
    (g h2 : Table) (name : String) (opcols : List String)
    (hok : map_on_each_group scols sasc snf lb ub ops g = .ok h2)
    (hmem : (none, name, opcols) ∈ ops)
    (hnd : (ops.map (fun o => o.2.1)).Nodup)
    (hfresh : ∀ r ∈ g, ∀ o ∈ ops, r.lookup o.2.1 = none) :
    h2.map (fun r => r.lookup name) =
      (List.range g.length).map (fun (i : Nat) => some ((i : Int) + 1)) := by
  obtain ⟨cols, hh2, hkeys, hrn⟩ :=
    map_on_each_group_ok_parts scols sasc snf lb ub ops g h2 hok
  subst hh2
  have hperm : List.Perm (sortedPartition scols sasc snf g) g :=
    sortedPartition_perm scols sasc snf g
  have hlen : (sortedPartition scols sasc snf g).length = g.length := hperm.length_eq
  have hrncol := hrn name opcols hmem
  have hndcols : (cols.map Prod.fst).Nodup := by rw [hkeys]; exact hnd
  have hfresh1 : ∀ r ∈ sortedPartition scols sasc snf g, ∀ c ∈ cols, r.lookup c.1 = none := by
    intro r hr c hc
    obtain ⟨o, ho, hoc⟩ := List.mem_map.mp (hkeys ▸ List.mem_map.mpr ⟨c, hc, rfl⟩)
    rw [← hoc]
    exact hfresh r (hperm.mem_iff.mp hr) o ho
  unfold assignAll
  rw [List.map_map, ← hlen]
  refine List.map_congr_left (fun i hi => ?_)
  have hilt : i < (sortedPartition scols sasc snf g).length := List.mem_range.mp hi
  have hrowmem : (sortedPartition scols sasc snf g).getD i [] ∈
      sortedPartition scols sasc snf g := getD_mem_of_lt _ [] i hilt
  show (cols.foldl (fun acc c => setField acc c.1 (c.2.getD i 0))
      ((sortedPartition scols sasc snf g).getD i [])).lookup name =
    some ((i : Int) + 1)
  rw [foldl_setField_append cols i _ (fun c hc => hfresh1 _ hrowmem c hc) hndcols,
    List.lookup_append, hfresh1 _ hrowmem _ hrncol,
    lookup_rowFields cols i name _ hrncol hndcols,
    listGetD_map_range (fun (j : Nat) => (j : Int) + 1) 0 i _ hilt]
  rfl

/-- C8 witness: row_number over a three-row partition sorted by `x`, with
CURRENT ROW / CURRENT ROW bounds (which the general Indexer branch cannot even
evaluate — row_number ignores them), yields exactly `[1, 2, 3]`. -/
theorem c8_witness :
    ([[("x", 3), ("rn", 1)], [("x", 7), ("rn", 2)], [("x", 9), ("rn", 3)]] : Table).map
        (fun r => r.lookup "rn") =
      (List.range ([[("x", 9)], [("x", 3)], [("x", 7)]] : Table).length).map
        (fun (i : Nat) => some ((i : Int) + 1)) :=
  c8_row_number_column ["x"] [true] [false] ⟨false, false, false, true, none⟩
    ⟨false, false, false, true, none⟩ [(none, "rn", [])]
    [[("x", 9)], [("x", 3)], [("x", 7)]]
    [[("x", 3), ("rn", 1)], [("x", 7), ("rn", 2)], [("x", 9), ("rn", 3)]]
    "rn" [] (by decide) (by decide) (by decide) (by decide)

/-- C9: the two fast-path branches produce the spec's frames — unbounded
preceding with current-row/offset-0 upper gives the expanding frame
`start_i = 0`, `end_i = i + 1`; bounded preceding `k` with current-row/offset-0
upper gives the trailing frame `start_i = max(0, i - k)`, `end_i = i + 1` —
and the two concrete running sums evaluate accordingly: sum over `[1, 2, 3, 4]`
with the expanding frame is `[1, 3, 6, 10]`, and sum over `[1, 2, 3, 4, 5]`
with the 2-preceding trailing frame is `[1, 3, 6, 9, 12]`. -/
theorem c9_fastpath_frames (lb ub : BoundDescription) (n i : Nat) (k : Int) :
    (lb.is_unbounded = true → (ub.is_current_row = true ∨ ub.offset = some 0) →
      windowedGroupOf lb ub = .ok .expanding ∧
      (i < n → (expandingBounds n).1.getD i 0 = 0 ∧
        (expandingBounds n).2.getD i 0 = (i : Int) + 1)) ∧
    (lb.is_unbounded = false → lb.is_preceding = true → lb.offset = some k →
      (ub.is_current_row = true ∨ ub.offset = some 0) →
      windowedGroupOf lb ub = .ok (.rollingFixed (k + 1)) ∧
      (i < n → (rollingFixedBounds (k + 1) n).1.getD i 0 = max 0 ((i : Int) - k) ∧
        (rollingFixedBounds (k + 1) n).2.getD i 0 = (i : Int) + 1)) ∧
    (map_on_each_group [] [] [] ⟨true, true, false, false, none⟩
        ⟨false, false, false, true, none⟩ [(some .sum, "w", ["x"])]
        [[("x", 1)], [("x", 2)], [("x", 3)], [("x", 4)]] =
      .ok [[("x", 1), ("w", 1)], [("x", 2), ("w", 3)], [("x", 3), ("w", 6)],
           [("x", 4), ("w", 10)]]) ∧
    (map_on_each_group [] [] [] ⟨false, true, false, false, some 2⟩
        ⟨false, false, false, true, none⟩ [(some .sum, "w", ["x"])]
        [[("x", 1)], [("x", 2)], [("x", 3)], [("x", 4)], [("x", 5)]] =
      .ok [[("x", 1), ("w", 1)], [("x", 2), ("w", 3)], [("x", 3), ("w", 6)],
           [("x", 4), ("w", 9)], [("x", 5), ("w", 12)]]) := by
  refine ⟨?_, ?_, by decide, by decide⟩
  · intro h1 h2
    refine ⟨windowedGroupOf_case1 lb ub h1 h2, fun hin => ?_⟩
    simp only [expandingBounds]
    rw [getD_replicate_of_lt 0 i n hin, listGetD_map_range _ 0 i n hin]
    exact ⟨rfl, rfl⟩
  · intro h1 h2 h3 h4
    refine ⟨windowedGroupOf_case2 lb ub k h1 h2 h3 h4, fun hin => ?_⟩
    simp only [rollingFixedBounds]
    rw [listGetD_map_range _ 0 i n hin, listGetD_map_range _ 0 i n hin]
    exact ⟨by omega, rfl⟩

/-- C9 witness: the fast-path frame shapes evaluated at concrete bounds,
partition length 5, row position 3 (expanding, and trailing with offset 2). -/
theorem c9_witness :
    windowedGroupOf ⟨true, true, false, false, none⟩ ⟨false, false, false, true, none⟩ =
      .ok .expanding ∧
    ((expandingBounds 5).1.getD 3 0 = 0 ∧ (expandingBounds 5).2.getD 3 0 = (3 : Int) + 1) ∧
    windowedGroupOf ⟨false, true, false, false, some 2⟩ ⟨false, false, false, true, none⟩ =
      .ok (.rollingFixed (2 + 1)) ∧
    ((rollingFixedBounds (2 + 1) 5).1.getD 3 0 = max 0 ((3 : Int) - 2) ∧
     (rollingFixedBounds (2 + 1) 5).2.getD 3 0 = (3 : Int) + 1) :=
  ⟨((c9_fastpath_frames ⟨true, true, false, false, none⟩
      ⟨false, false, false, true, none⟩ 5 3 0).1 rfl (Or.inl rfl)).1,
   ((c9_fastpath_frames ⟨true, true, false, false, none⟩
      ⟨false, false, false, true, none⟩ 5 3 0).1 rfl (Or.inl rfl)).2 (by decide),
   ((c9_fastpath_frames ⟨false, true, false, false, some 2⟩
      ⟨false, false, false, true, none⟩ 5 3 2).2.1 rfl rfl rfl (Or.inl rfl)).1,
   ((c9_fastpath_frames ⟨false, true, false, false, some 2⟩
      ⟨false, false, false, true, none⟩ 5 3 2).2.1 rfl rfl rfl (Or.inl rfl)).2 (by decide)⟩

/-! ## Claim C10: row preservation of apply_window -/

/-- All temporary helper columns of one window group: the grouping columns and
the per-call operand columns (these are dropped before the output is final). -/
def tempColumns (gcols : List (String × (Row → Int))) (aggCalls : List AggCall) :
    List String :=
  gcols.map Prod.fst ++ (aggCalls.map (fun c => c.operands.map Prod.fst)).flatten

/-- All columns `apply_window` ever adds to the table: the temporaries plus one
result column per aggregate call. -/
def addedColumns (gcols : List (String × (Row → Int))) (aggCalls : List AggCall) :
    List String :=
  tempColumns gcols aggCalls ++ aggCalls.map AggCall.newColumn

/-- C10: a successful `apply_window` returns every input row exactly once with
its original column values unchanged (stripping the added columns gives back
exactly the input rows, as a permutation), with the same row count; each
output row carries one result column per aggregate call, and every temporary
helper column (grouping keys and operand temporaries) has been dropped. -/
theorem c10_apply_window_row_preservation
    (df : Table) (gcols : List (String × (Row → Int))) (aggCalls : List AggCall)
    (ctx : List (String × OverOp)) (scols : List String) (sasc snf : List Bool)
    (lb ub : BoundDescription) (out : Table)
    (hok : apply_window df gcols aggCalls ctx scols sasc snf lb ub = .ok out)
    (hfresh : ∀ r ∈ df, ∀ a ∈ addedColumns gcols aggCalls, r.lookup a = none)
    (hnd : (addedColumns gcols aggCalls).Nodup) :
    List.Perm (out.map (dropFields (addedColumns gcols aggCalls))) df ∧
    out.length = df.length ∧
    (∀ r ∈ out, ∀ c ∈ aggCalls, (r.lookup c.newColumn).isSome = true) ∧
    (∀ r ∈ out, ∀ t ∈ tempColumns gcols aggCalls, r.lookup t = none) := by
  unfold apply_window at hok
  split at hok
  · cases hok
  · split at hok
    · cases hok
    · rename_i x1 operations df2 hex x2 df3 hga
      clear x1 x2
      cases hok
      obtain ⟨hops1, hops2, hstrip2⟩ :=
        extract_operations_ok_parts ctx (addedColumns gcols aggCalls) aggCalls _ _ _ hex
      have hg2 : (extract_groupby df gcols).2 = gcols.map Prod.fst := rfl
      have htemps : (extract_groupby df gcols).2 ++ (operations.map (fun o => o.2.2)).flatten =
          tempColumns gcols aggCalls := by
        rw [hg2, hops2]
        rfl
      have hsubT : ∀ a ∈ tempColumns gcols aggCalls, a ∈ addedColumns gcols aggCalls :=
        fun a ha => List.mem_append.mpr (Or.inl ha)
      have hstrip1 : ((extract_groupby df gcols).1).map
            (dropFields (addedColumns gcols aggCalls)) =
          df.map (dropFields (addedColumns gcols aggCalls)) := by
        exact foldl_assignFn_map_dropFields _ gcols df
          (fun c hc => hsubT _ (List.mem_append.mpr (Or.inl (List.mem_map.mpr ⟨c, hc, rfl⟩))))
      have hstrip2b := hstrip2 (fun c hc oc hoc =>
        hsubT _ (List.mem_append.mpr (Or.inr (List.mem_flatten.mpr
          ⟨c.operands.map Prod.fst, List.mem_map.mpr ⟨c, hc, rfl⟩,
           List.mem_map.mpr ⟨oc, hoc, rfl⟩⟩))))
      have hcolsub : ∀ nc ∈ operations.map (fun o => o.2.1),
          nc ∈ addedColumns gcols aggCalls := by
        intro nc hnc
        rw [hops1] at hnc
        exact List.mem_append.mpr (Or.inr hnc)
      have hgoodPerm : ∀ g0 h0,
          map_on_each_group scols sasc snf lb ub operations g0 = .ok h0 →
          List.Perm (h0.map (dropFields (addedColumns gcols aggCalls)))
            (g0.map (dropFields (addedColumns gcols aggCalls))) := by
        intro g0 h0 hmg
        obtain ⟨cols, hh0, hkeys, _⟩ :=
          map_on_each_group_ok_parts scols sasc snf lb ub operations g0 h0 hmg
        subst hh0
        rw [assignAll_map_dropFields _ _ cols
          (fun c hc => hcolsub c.1 (hkeys ▸ List.mem_map.mpr ⟨c, hc, rfl⟩))]
        exact (sortedPartition_perm scols sasc snf g0).map _
      have hgoodMem : ∀ g0 h0,
          map_on_each_group scols sasc snf lb ub operations g0 = .ok h0 →
          ∀ r ∈ h0, ∀ nc ∈ aggCalls.map AggCall.newColumn,
            (r.lookup nc).isSome = true := by
        intro g0 h0 hmg r hr nc hnc
        obtain ⟨cols, hh0, hkeys, _⟩ :=
          map_on_each_group_ok_parts scols sasc snf lb ub operations g0 h0 hmg
        subst hh0
        obtain ⟨i, _, rfl⟩ := mem_assignAll _ cols r hr
        apply foldl_setField_lookup_isSome
        rw [hkeys, hops1]
        exact hnc
      have hpermMain := groupby_apply_ok_perm df2 (extract_groupby df gcols).2 _
        (dropFields (addedColumns gcols aggCalls)) df3 hgoodPerm hga
      have hmemMain := groupby_apply_ok_mem df2 (extract_groupby df gcols).2 _
        (fun r => ∀ nc ∈ aggCalls.map AggCall.newColumn, (r.lookup nc).isSome = true)
        df3 hgoodMem hga
      have hdfstrip : df.map (dropFields (addedColumns gcols aggCalls)) = df := by
        have hrow : ∀ r ∈ df, dropFields (addedColumns gcols aggCalls) r = r :=
          fun r hr => dropFields_eq_self _ r (fun a ha => hfresh r hr a ha)
        calc df.map (dropFields (addedColumns gcols aggCalls))
            = df.map id := List.map_congr_left (fun r hr => hrow r hr)
          _ = df := List.map_id df
      have hchain : List.Perm (df3.map (dropFields (addedColumns gcols aggCalls))) df := by
        have heq2 : df2.map (dropFields (addedColumns gcols aggCalls)) = df := by
          rw [hstrip2b, hstrip1, hdfstrip]
        exact heq2 ▸ hpermMain
      have hdisj : ∀ nc ∈ aggCalls.map AggCall.newColumn,
          nc ∉ tempColumns gcols aggCalls := by
        intro nc hnc hmemT
        unfold addedColumns at hnd
        exact (List.nodup_append.mp hnd).2.2 hmemT hnc
      refine ⟨?_, ?_, ?_, ?_⟩
      · rw [htemps, List.map_map]
        have heq : df3.map (dropFields (addedColumns gcols aggCalls) ∘
              dropFields (tempColumns gcols aggCalls)) =
            df3.map (dropFields (addedColumns gcols aggCalls)) :=
          List.map_congr_left (fun r _ =>
            dropFields_dropFields_subset (tempColumns gcols aggCalls)
              (addedColumns gcols aggCalls) hsubT r)
        rw [heq]
        exact hchain
      · have hlen := hchain.length_eq
        simpa using hlen
      · intro r hr c hc
        rw [htemps] at hr
        obtain ⟨r3, hr3, rfl⟩ := List.mem_map.mp hr
        have hncm : c.newColumn ∈ aggCalls.map AggCall.newColumn :=
          List.mem_map.mpr ⟨c, hc, rfl⟩
        rw [dropFields_lookup_of_not_mem _ _ (hdisj _ hncm) r3]
        exact hmemMain r3 hr3 c.newColumn hncm
      · intro r hr t ht
        rw [htemps] at hr
        obtain ⟨r3, _, rfl⟩ := List.mem_map.mp hr
        exact dropFields_lookup_of_mem _ t ht r3

/-- C10 witness: a three-row table with two partitions (grouped by `b` through
the temporary column `g`), one running-sum aggregate call over operand `t`
producing result column `w`: the output keeps all original rows and values,
adds `w`, and carries no temporary columns. -/
theorem c10_witness :
    List.Perm
      (([[("a", 10), ("b", 1), ("w", 10)], [("a", 20), ("b", 1), ("w", 30)],
         [("a", 30), ("b", 2), ("w", 30)]] : Table).map
        (dropFields (addedColumns [("g", fun r => (r.lookup "b").getD 0)]
          [⟨"sum", [("t", fun r => (r.lookup "a").getD 0)], "w"⟩])))
      [[("a", 10), ("b", 1)], [("a", 20), ("b", 1)], [("a", 30), ("b", 2)]] ∧
    ([[("a", 10), ("b", 1), ("w", 10)], [("a", 20), ("b", 1), ("w", 30)],
      [("a", 30), ("b", 2), ("w", 30)]] : Table).length =
      ([[("a", 10), ("b", 1)], [("a", 20), ("b", 1)], [("a", 30), ("b", 2)]] : Table).length := by
  have h := c10_apply_window_row_preservation
    [[("a", 10), ("b", 1)], [("a", 20), ("b", 1)], [("a", 30), ("b", 2)]]
    [("g", fun r => (r.lookup "b").getD 0)]
    [⟨"sum", [("t", fun r => (r.lookup "a").getD 0)], "w"⟩]
    [] [] [] [] ⟨true, true, false, false, none⟩ ⟨false, false, false, true, none⟩
    [[("a", 10), ("b", 1), ("w", 10)], [("a", 20), ("b", 1), ("w", 30)],
     [("a", 30), ("b", 2), ("w", 30)]]
    (by decide) (by decide) (by decide)
  exact ⟨h.1, h.2.1⟩

end DaskSqlWindow
